import Mathlib

/-!
Verification development for the Dispatch work-orchestrator.

The JavaScript core (src/index.js: `processProject`, `reviewLoop`,
`dispatchCycle`, `registerGregHandler`; src/project/state.js:
`resumeProject`, `loadActiveProjects`, `loadWaitingProjects`;
src/agents/grok.js: `reviewWork`) is shallowly embedded below.  External
collaborators (the Grok decision/review agent, the Claude execution agent,
git, Slack, wall-clock time) are modelled as oracles: functions supplied as
inputs that return, per call site, the value the collaborator would return.
The JavaScript `while` loops are rendered as fuel-indexed structural
recursion so that every definition is executable; for the revision loop the
fuel is exactly the source's `SAFETY_CAP - revisionCount`, so no behaviour
depends on an artificial bound.

Notification-only `sendMessage` / `log` calls carry no state and are not
modelled; `askGreg` escalations and `reportError` calls are tracked in the
`asks` / `errs` lists because the specification constrains them.  Message
texts using punctuation unavailable here are rendered with the same words
minus that punctuation.  JavaScript truthiness on possibly-missing strings
is modelled by `strTruthy` / `strOr`.
-/

namespace Dispatch

/-- JavaScript truthiness of a nullable string: `null`/`undefined` and the
empty string are falsy. -/
def strTruthy : Option String → Bool
  | none => false
  | some s => s ≠ ""

/-- JavaScript `a || b` on strings: the empty string falls through. -/
def strOr (a b : String) : String :=
  if a = "" then b else a

/-- Project status, `status ∈ {active, paused, completed, waiting_input}`
(src/utils/schemas.js `validateProjectState`). -/
inductive Status
  | active
  | paused
  | completed
  | waiting_input
deriving DecidableEq

/-- A finished task appended to `state.completed`
(src/index.js `taskEntry`, lines 245-251). -/
structure TaskRecord where
  task : String
  completedAt : Nat
  commitHash : Option String
  revisions : Nat
  iteration : Option Nat
deriving DecidableEq

/-- The `state.inProgress` slot set before invoking the execution agent
(src/index.js lines 228-232). -/
structure InProgressTask where
  task : String
  startedAt : Nat
deriving DecidableEq

/-- `state.context` (src/utils/schemas.js `createProjectTemplate`). -/
structure ProjCtx where
  techStack : List String
  preferences : List String
deriving DecidableEq

/-- Persisted per-project record (src/utils/schemas.js
`createProjectTemplate` plus the `timeBudget` / `maxIterations` /
`gregDirection` fields read by src/index.js).  Timestamps are opaque `Nat`
ticks supplied by the clock oracle. -/
structure ProjectState where
  projectId : String
  name : String
  repoPath : String
  currentGoal : String
  status : Status
  completed : List TaskRecord
  inProgress : Option InProgressTask
  blockers : List String
  context : ProjCtx
  timeBudget : Nat
  maxIterations : Nat
  gregDirection : Option String
  lastActivity : Nat
deriving DecidableEq

/-- Decision-agent confidence (src/agents/grok.js response format). -/
inductive Confidence
  | high
  | medium
  | low
deriving DecidableEq

/-- `decision.nextStep` (src/agents/grok.js response format). -/
structure NextStep where
  task : String
  details : String
  isPrerequisite : Bool
deriving DecidableEq

/-- Decision-agent output consumed by `processProject`
(src/agents/grok.js `proposeNextStep`). -/
structure Decision where
  nextStep : NextStep
  confidence : Confidence
  needsGreg : Bool
  questionForGreg : String
deriving DecidableEq

/-- Execution-result status (src/utils/schemas.js `validateExecution`). -/
inductive ExecStatus
  | completed
  | needs_input
  | failed
deriving DecidableEq

/-- Execution-agent output (src/agents/claude.js JSON block). -/
structure ExecutionResult where
  status : ExecStatus
  commitHash : Option String
  summary : String
  filesChanged : List String
  questionsForGreg : List String
  issues : List String
deriving DecidableEq

/-- Review decision.  The source spells the escalate-to-human decision
`ask_greg` (src/agents/grok.js review prompt and src/index.js line 389);
the specification names the same decision `escalate`. -/
inductive ReviewDecision
  | approve
  | revise
  | ask_greg
deriving DecidableEq

/-- One itemized revision entry (src/agents/grok.js review format). -/
structure RevisionItem where
  file : String
  issue : String
  suggestion : String
deriving DecidableEq

/-- Review-agent output consumed by `reviewLoop`. -/
structure Review where
  decision : ReviewDecision
  summary : String
  revisions : List RevisionItem
  feedback : String
  questionForGreg : String
deriving DecidableEq

/-- One round of accumulated revision history
(src/index.js line 403: `revisionHistory.push`). -/
structure HistEntry where
  feedback : String
  revisions : List RevisionItem
deriving DecidableEq

/-! ### reviewWork retry and auto-approve fallback (src/agents/grok.js) -/

/-- A successfully parsed review JSON before normalization: `decision` may
be absent, in which case the legacy `approved` boolean is consulted
(src/agents/grok.js lines 550-553). -/
structure RawReview where
  decision : Option ReviewDecision
  approved : Bool
  summary : String
  revisions : List RevisionItem
  feedback : String
  questionForGreg : String
deriving DecidableEq

/-- Normalization performed by `reviewWork` on a parsed response:
`if (!review.decision) review.decision = review.approved ? approve : revise`. -/
def normalizeReview (raw : RawReview) : Review :=
  { decision := raw.decision.getD (if raw.approved then .approve else .revise)
    summary := raw.summary
    revisions := raw.revisions
    feedback := raw.feedback
    questionForGreg := raw.questionForGreg }

/-- The auto-approve fallback returned when all review attempts fail
(src/agents/grok.js line 573). -/
def reviewFailedFallback : Review :=
  { decision := .approve, summary := "Review failed, auto-approved"
    revisions := [], feedback := "", questionForGreg := "" }

/-- Result of `reviewWork`: the review, the backoff waits performed (ms),
and the number of agent attempts made. -/
structure ReviewWorkResult where
  review : Review
  waits : List Nat
  attemptsMade : Nat
deriving DecidableEq

/-- The `for (attempt = 1; attempt <= 3; attempt++)` retry loop of
`reviewWork` (src/agents/grok.js lines 535-569).  The oracle returns
`some raw` when the API call succeeds and parses, `none` when it throws;
on failure before attempt 3 the loop sleeps `1000 * 2^attempt` ms. -/
def reviewWorkFrom (attempts : Nat → Option RawReview) : Nat → ReviewWorkResult
  | 0 => { review := reviewFailedFallback, waits := [], attemptsMade := 0 }
  | fuel + 1 =>
    let attempt := 3 - fuel
    match attempts attempt with
    | some raw => { review := normalizeReview raw, waits := [], attemptsMade := 1 }
    | none =>
      if fuel = 0 then
        { review := reviewFailedFallback, waits := [], attemptsMade := 1 }
      else
        let rest := reviewWorkFrom attempts fuel
        { review := rest.review
          waits := 1000 * 2 ^ attempt :: rest.waits
          attemptsMade := rest.attemptsMade + 1 }

/-- `reviewWork` (src/agents/grok.js lines 468-574): up to 3 attempts, then
the auto-approve fallback — the function never raises. -/
def reviewWork (attempts : Nat → Option RawReview) : ReviewWorkResult :=
  reviewWorkFrom attempts 3

/-! ### Revision loop (src/index.js `reviewLoop`, lines 351-434) -/

/-- The finalized outcome returned on an `approve` review
(src/index.js lines 380-386). -/
structure Finalized where
  commitHash : Option String
  summary : String
  filesChanged : List String
  revisionCount : Nat
  beforeHash : Option String
deriving DecidableEq

/-- Result of `reviewLoop`: the approved outcome, or the `'waiting'`
sentinel after an escalation. -/
inductive LoopResult
  | approved (out : Finalized)
  | waiting
deriving DecidableEq

/-- Everything one `reviewLoop` run produces: the sentinel/outcome, the
(possibly mutated) project state, the states passed to `saveProject`, the
`askGreg` escalation texts, review-agent rounds, and `executeRevision`
calls. -/
structure ReviewExit where
  result : LoopResult
  state : ProjectState
  saves : List ProjectState
  asks : List String
  rounds : Nat
  revCalls : Nat
deriving DecidableEq

/-- Oracles for one `reviewLoop` run: the review agent (fed the current
commit id and accumulated history), the execution agent's revision call
(fed the review and the new round number), and the pre-task HEAD found by
walking the git log (src/index.js lines 359-368). -/
structure ReviewEnv where
  review : Option String → List HistEntry → Review
  reviseExec : Review → Nat → ExecutionResult

structure ReviewEnvExtra where
  beforeHash : Option String

/-- `const SAFETY_CAP = 6` (src/index.js line 352). -/
def SAFETY_CAP : Nat := 6

/-- `askGreg` text of the `ask_greg` review branch (src/index.js line 392). -/
def askGregReviewText (rv : Review) : String :=
  ":thinking_face: Grok reviewed the work and wants your input:\n\n" ++
    rv.questionForGreg ++ "\n\n_Summary: " ++ rv.summary ++ "_"

/-- `askGreg` text when a revision attempt fails to commit
(src/index.js line 414). -/
def revisionFailedText (task : String) (rc : Nat) : String :=
  ":warning: Claude revision did not produce a clean result.\n\nOriginal task: "
    ++ task ++ "\nAttempted revisions: " ++ toString rc ++
    "\n\nHow should we proceed?"

/-- `askGreg` text of the safety-cap escalation (src/index.js line 427). -/
def safetyCapText (task : String) : String :=
  ":rotating_light: Hit " ++ toString SAFETY_CAP ++ " revision rounds on: *"
    ++ task ++ "*. Want me to accept the current state, or do you have direction?"

/-- Line 403: `revisionHistory.push({feedback, revisions})`. -/
def pushHist (hist : List HistEntry) (rv : Review) : List HistEntry :=
  hist ++ [{ feedback := rv.feedback, revisions := rv.revisions }]

/-- The state written by every escalated exit of the revision loop:
`status = waiting_input`, `inProgress = null`
(src/index.js lines 395-397, 417-419, 430-432). -/
def escalatedState (state : ProjectState) : ProjectState :=
  { state with status := .waiting_input, inProgress := none }

/-- The `while (revisionCount < SAFETY_CAP)` loop of `reviewLoop`
(src/index.js lines 370-433), as structural recursion on the remaining
rounds `fuel = SAFETY_CAP - revisionCount`; `fuel = 0` is exactly the
loop-exit safety-cap escalation of lines 424-433. -/
def reviewLoopGo (env : ReviewEnv) (bh : Option String) (taskDescription : String) :
    Nat → Nat → ProjectState → ExecutionResult → List HistEntry → ReviewExit
  | 0, _, state, _, _ =>
    let st := escalatedState state
    { result := .waiting, state := st, saves := [st]
      asks := [safetyCapText taskDescription], rounds := 0, revCalls := 0 }
  | fuel + 1, revisionCount, state, currentExecution, revisionHistory =>
    let review := env.review currentExecution.commitHash revisionHistory
    match review.decision with
    | .approve =>
      { result := .approved
          { commitHash := currentExecution.commitHash
            summary := strOr currentExecution.summary review.summary
            filesChanged := currentExecution.filesChanged
            revisionCount := revisionCount
            beforeHash := bh }
        state := state, saves := [], asks := [], rounds := 1, revCalls := 0 }
    | .ask_greg =>
      let st := escalatedState state
      { result := .waiting, state := st, saves := [st]
        asks := [askGregReviewText review], rounds := 1, revCalls := 0 }
    | .revise =>
      let revisionCount' := revisionCount + 1
      let revisionHistory' := pushHist revisionHistory review
      let revisionResult := env.reviseExec review revisionCount'
      if revisionResult.status = .completed ∧ strTruthy revisionResult.commitHash = true then
        let rest := reviewLoopGo env bh taskDescription fuel revisionCount'
          state revisionResult revisionHistory'
        { rest with rounds := rest.rounds + 1, revCalls := rest.revCalls + 1 }
      else
        let st := escalatedState state
        { result := .waiting, state := st, saves := [st]
          asks := [revisionFailedText taskDescription revisionCount']
          rounds := 1, revCalls := 1 }

/-- `reviewLoop(state, decision, execution)` (src/index.js lines 351-434),
entered with `revisionCount = 0` and empty history. -/
def reviewLoop (env : ReviewEnv) (bh : Option String) (taskDescription : String)
    (state : ProjectState) (execution : ExecutionResult) : ReviewExit :=
  reviewLoopGo env bh taskDescription SAFETY_CAP 0 state execution []

/-! ### Per-project state machine (src/index.js `processProject`, lines 126-345) -/

/-- An iteration branch recorded for the session summary
(src/index.js lines 271-275). -/
structure IterationBranch where
  branch : String
  summary : String
  commitHash : Option String
deriving DecidableEq

/-- Result of `parseGoal` (src/agents/grok.js), used by the
completed-project branch; `techStack` / `preferences` are `none` when the
parsed JSON omits them (`parsed.techStack || state.context.techStack`). -/
structure GoalParse where
  projectId : String
  name : String
  currentGoal : String
  techStack : Option (List String)
  preferences : Option (List String)
deriving DecidableEq

/-- Oracles for one `processProject` run, indexed by the count `k` of
iteration-loop entries so far: the decision agent, the execution agent,
the review agent and its revision calls, the pre-task HEAD lookup, git
branch-operation success, the two `timeRemaining()` reads (ms, used only
when a time budget is set), and the clock. -/
structure ProcEnv where
  parsedGoal : GoalParse
  decide : Nat → Decision
  exec : Nat → ExecutionResult
  review : Nat → Option String → List HistEntry → Review
  reviseExec : Nat → Review → Nat → ExecutionResult
  beforeHash : Nat → Option String
  gitOk : Nat → Bool
  timeRemTop : Nat → Int
  timeRemBranch : Nat → Int
  now : Nat → Nat

/-- The `[ITERATION MODE]` note appended to `gregDirection` when iterating
(src/index.js lines 192-198). -/
def iterationNote (currentIteration : Nat) (branches : List IterationBranch) : String :=
  let prevContext := String.intercalate "\n"
    ((branches.enum.map (fun p =>
      "Iteration " ++ toString (p.1 + 1) ++ " (branch: " ++ p.2.branch ++ "): "
        ++ p.2.summary)))
  "\n\n[ITERATION MODE] This is iteration " ++ toString currentIteration ++
    ". Previous approaches:\n" ++ prevContext ++
    "\n\nTry a meaningfully DIFFERENT approach this time. Different architecture, different libraries, different structure."

/-- Lines 192-198: on iteration > 1 with recorded branches, append the
iteration note to `gregDirection`. -/
def injectIterationContext (state : ProjectState) (currentIteration : Nat)
    (branches : List IterationBranch) : ProjectState :=
  if currentIteration > 1 ∧ branches ≠ [] then
    { state with gregDirection := some ((state.gregDirection.getD "") ++ iterationNote currentIteration branches) }
  else state

/-- Lines 203-206: an empty `currentGoal` adopts a pending direction. -/
def adoptGoal (state : ProjectState) : ProjectState :=
  if state.currentGoal = "" ∧ strTruthy state.gregDirection = true then
    { state with currentGoal := state.gregDirection.getD "" }
  else state

/-- Lines 209-212: clear a consumed direction and persist; returns the new
state and the list of saves performed (empty or a singleton). -/
def clearDirection (state : ProjectState) : ProjectState × List ProjectState :=
  if strTruthy state.gregDirection = true then
    let st := { state with gregDirection := none }
    (st, [st])
  else (state, [])

/-- Line 215: `decision.needsGreg || decision.confidence === 'low'`. -/
def escalationNeeded (d : Decision) : Bool :=
  d.needsGreg || d.confidence == .low

/-- Line 218: the question sent to Greg, or the synthesized default. -/
def decisionQuestion (d : Decision) : String :=
  strOr d.questionForGreg ("Should I proceed with: " ++ d.nextStep.task ++ "?")

/-- Line 300: escalation text when execution completed without a commit. -/
def noCommitText (task : String) : String :=
  "Claude worked on \"" ++ task ++
    "\" but did not produce a commit. How should we proceed?"

/-- Line 308: `execution.questionsForGreg?.join('\n') || execution.summary`. -/
def needsInputQuestion (e : ExecutionResult) : String :=
  strOr (String.intercalate "\n" e.questionsForGreg) e.summary

/-- How one iteration-loop body run ends: `ret` leaves `processProject`,
`brk` exits the loop to the session summary, `cont` loops. -/
inductive StepKind
  | ret
  | brk
  | cont
deriving DecidableEq

/-- Input of one iteration-loop body run. -/
structure StepIn where
  state : ProjectState
  currentIteration : Nat
  branches : List IterationBranch
  k : Nat
deriving DecidableEq

/-- Effects of one iteration-loop body run: the updated loop variables and
the saves / escalations / error reports / agent-call counts it produced. -/
structure StepOut where
  kind : StepKind
  state : ProjectState
  currentIteration : Nat
  branches : List IterationBranch
  saves : List ProjectState
  asks : List String
  errs : List String
  execCalls : Nat
  revCalls : Nat
  rounds : Nat
deriving DecidableEq

/-- Lines 183-212 of the loop body: iteration-context injection, goal
adoption, and direction clearing; returns the resulting state and the
saves performed. -/
def stepPreState (si : StepIn) : ProjectState × List ProjectState :=
  let stA := injectIterationContext si.state (si.currentIteration + 1) si.branches
  let stB := adoptGoal stA
  clearDirection stB

/-- The state with `inProgress` marked, as persisted on lines 228-233. -/
def stepExecState (env : ProcEnv) (si : StepIn) : ProjectState :=
  { (stepPreState si).1 with inProgress := some { task := (env.decide si.k).nextStep.task, startedAt := env.now si.k } }

/-- The `reviewLoop` call of line 240, with this iteration's oracles. -/
def stepReview (env : ProcEnv) (si : StepIn) : ReviewExit :=
  reviewLoop { review := env.review si.k, reviseExec := env.reviseExec si.k }
    (env.beforeHash si.k) (env.decide si.k).nextStep.task
    (stepExecState env si) (env.exec si.k)

/-- One body run of the `while (currentIteration < maxIterations)` loop of
`processProject` (src/index.js lines 169-325), after the loop guard has
passed.  `mi` and `tb` are the effective `maxIterations` and the time
budget in ms. -/
def procStep (env : ProcEnv) (mi tb : Nat) (si : StepIn) : StepOut :=
  let k := si.k
  let ci := si.currentIteration + 1
  -- lines 173-176: time-budget check (timeRemaining() is Infinity when tb = 0)
  if tb > 0 ∧ env.timeRemTop k < 60000 then
    { kind := .brk, state := si.state, currentIteration := ci
      branches := si.branches, saves := [], asks := [], errs := []
      execCalls := 0, revCalls := 0, rounds := 0 }
  else
    let decision := env.decide k
    let stC := (stepPreState si).1
    let saves1 := (stepPreState si).2
    if escalationNeeded decision = true then
      -- lines 215-224: escalate without touching inProgress
      let stD := { stC with status := .waiting_input }
      { kind := .ret, state := stD, currentIteration := ci
        branches := si.branches, saves := saves1 ++ [stD]
        asks := [decisionQuestion decision], errs := []
        execCalls := 0, revCalls := 0, rounds := 0 }
    else
      -- lines 227-235: mark inProgress, persist, execute
      let stD := stepExecState env si
      let execution := env.exec k
      if execution.status = .completed ∧ strTruthy execution.commitHash = true then
        let rex := stepReview env si
        match rex.result with
        | .waiting =>
          -- line 242: escalated inside the review loop, exit
          { kind := .ret, state := rex.state, currentIteration := ci
            branches := si.branches, saves := saves1 ++ [stD] ++ rex.saves
            asks := rex.asks, errs := [], execCalls := 1
            revCalls := rex.revCalls, rounds := rex.rounds }
        | .approved out =>
          -- lines 245-297: record the task, maybe branch the iteration
          let taskEntry : TaskRecord :=
            { task := decision.nextStep.task, completedAt := env.now k
              commitHash := out.commitHash, revisions := out.revisionCount
              iteration := if mi > 1 then some ci else none }
          let isPrereq := decision.nextStep.isPrerequisite
          let ci' := if isPrereq then ci - 1 else ci
          let branches' :=
            if isPrereq then si.branches
            else if mi > 1 ∧ ci < mi ∧ (tb = 0 ∨ env.timeRemBranch k > 60000) then
              if env.gitOk k then
                si.branches ++
                  [{ branch := "iteration-" ++ toString ci
                     summary := out.summary, commitHash := out.commitHash }]
              else si.branches
            else si.branches
          let stE := { rex.state with
            completed := rex.state.completed ++ [taskEntry]
            inProgress := none, lastActivity := env.now k }
          -- line 324: in single-cycle mode break after the first task
          { kind := if tb = 0 then .brk else .cont, state := stE
            currentIteration := ci', branches := branches'
            saves := saves1 ++ [stD] ++ rex.saves ++ [stE]
            asks := rex.asks, errs := [], execCalls := 1
            revCalls := rex.revCalls, rounds := rex.rounds }
      else if execution.status = .completed then
        -- lines 299-306: completed without a commit, escalate
        let stE := { stD with status := .waiting_input, inProgress := none }
        { kind := .ret, state := stE, currentIteration := ci
          branches := si.branches, saves := saves1 ++ [stD, stE]
          asks := [noCommitText decision.nextStep.task], errs := []
          execCalls := 1, revCalls := 0, rounds := 0 }
      else if execution.status = .needs_input then
        -- lines 307-314: relay the agent's questions, escalate
        let stE := { stD with status := .waiting_input, inProgress := none }
        { kind := .ret, state := stE, currentIteration := ci
          branches := si.branches, saves := saves1 ++ [stD, stE]
          asks := [needsInputQuestion execution], errs := []
          execCalls := 1, revCalls := 0, rounds := 0 }
      else
        -- lines 315-321: hard failure, report and stop iterating
        let stE := { stD with inProgress := none }
        { kind := .ret, state := stE, currentIteration := ci
          branches := si.branches, saves := saves1 ++ [stD, stE]
          asks := [], errs := [execution.summary]
          execCalls := 1, revCalls := 0, rounds := 0 }

/-- Accumulated result of running the iteration loop (and of
`processProject` as a whole).  `finished = false` only when the supplied
fuel ran out before the loop did. -/
structure ProcRun where
  state : ProjectState
  branches : List IterationBranch
  saves : List ProjectState
  asks : List String
  errs : List String
  execCalls : Nat
  revCalls : Nat
  rounds : Nat
  finished : Bool
deriving DecidableEq

/-- The iteration loop driver: guard `currentIteration < maxIterations`,
then one body run, repeated.  Fuel only bounds how many body runs are
unfolded; every claim proved below is independent of its value or carries
it as an explicit hypothesis. -/
def procLoop (env : ProcEnv) (mi tb : Nat) : Nat → StepIn → ProcRun
  | 0, si =>
    { state := si.state, branches := si.branches, saves := [], asks := []
      errs := [], execCalls := 0, revCalls := 0, rounds := 0, finished := false }
  | fuel + 1, si =>
    if si.currentIteration < mi then
      let o := procStep env mi tb si
      match o.kind with
      | .cont =>
        let rest := procLoop env mi tb fuel
          { state := o.state, currentIteration := o.currentIteration
            branches := o.branches, k := si.k + 1 }
        { state := rest.state, branches := rest.branches
          saves := o.saves ++ rest.saves, asks := o.asks ++ rest.asks
          errs := o.errs ++ rest.errs, execCalls := o.execCalls + rest.execCalls
          revCalls := o.revCalls + rest.revCalls, rounds := o.rounds + rest.rounds
          finished := rest.finished }
      | _ =>
        { state := o.state, branches := o.branches, saves := o.saves
          asks := o.asks, errs := o.errs, execCalls := o.execCalls
          revCalls := o.revCalls, rounds := o.rounds, finished := true }
    else
      { state := si.state, branches := si.branches, saves := [], asks := []
        errs := [], execCalls := 0, revCalls := 0, rounds := 0, finished := true }

/-- Lines 138-151: a completed project adopts a freshly parsed goal and
returns to `active` before the iteration loop starts. -/
def goalReset (parsed : GoalParse) (state : ProjectState) : ProjectState :=
  { state with
    currentGoal := parsed.currentGoal
    status := .active
    gregDirection := none
    context :=
      { techStack := parsed.techStack.getD state.context.techStack
        preferences := parsed.preferences.getD state.context.preferences } }

/-- `processProject(projectId)` (src/index.js lines 126-345) for an
already-loaded state: skip `waiting_input`, reset a `completed` project to
a new active goal, then run the iteration loop with the effective
`maxIterations` (`state.maxIterations || 1`) and time budget in ms
(`(state.timeBudget || 0) * 60 * 1000`). -/
def processProject (env : ProcEnv) (fuel : Nat) (state0 : ProjectState) : ProcRun :=
  if state0.status = .waiting_input then
    { state := state0, branches := [], saves := [], asks := [], errs := []
      execCalls := 0, revCalls := 0, rounds := 0, finished := true }
  else
    let entry :=
      if state0.status = .completed then
        let st := goalReset env.parsedGoal state0
        (st, [st])
      else (state0, ([] : List ProjectState))
    let state1 := entry.1
    let tb := state1.timeBudget * 60 * 1000
    let mi := if state1.maxIterations = 0 then 1 else state1.maxIterations
    let run := procLoop env mi tb fuel
      { state := state1, currentIteration := 0, branches := [], k := 0 }
    { run with saves := entry.2 ++ run.saves }

/-! ### State store and reply router (src/project/state.js, src/index.js
`registerGregHandler`) -/

/-- `resumeProject(projectId, gregDirection)` (src/project/state.js lines
332-340): set `active`, stash the direction, bump `lastActivity`, persist. -/
def resumeProject (gregDirection : String) (now : Nat) (state : ProjectState) : ProjectState :=
  { state with status := .active, gregDirection := some gregDirection, lastActivity := now }

/-- `loadActiveProjects` (src/project/state.js lines 294-311): the projects
with `status === 'active'`, in store listing order. -/
def loadActiveProjects (store : List ProjectState) : List ProjectState :=
  store.filter (fun p => p.status = .active)

/-- `loadWaitingProjects` (src/project/state.js lines 313-330): the projects
with `status === 'waiting_input'`, in store listing order. -/
def loadWaitingProjects (store : List ProjectState) : List ProjectState :=
  store.filter (fun p => p.status = .waiting_input)

/-- What the Greg-reply handler did (src/index.js lines 440-477). -/
inductive HandlerAction
  | resumedWaiting (st : ProjectState)
  | attachedToActive (st : ProjectState)
  | onboardingCycle
deriving DecidableEq

/-- Result of the Greg-reply handler: the action taken, the
(before, after) pairs passed to `saveProject`, and whether a new dispatch
cycle was triggered. -/
structure HandlerResult where
  action : HandlerAction
  saves : List (ProjectState × ProjectState)
  triggeredCycle : Bool
deriving DecidableEq

/-- The unsolicited-reply router registered by `registerGregHandler`
(src/index.js lines 440-477): resume the first waiting project, else
attach the text as pending direction on the first active project, else
run a cycle that will start onboarding.  Every branch calls
`dispatchCycle()`. -/
def handleGregMessage (store : List ProjectState) (text : String) (now : Nat) :
    HandlerResult :=
  match loadWaitingProjects store with
  | p :: _ =>
    let st := resumeProject text now p
    { action := .resumedWaiting st, saves := [(p, st)], triggeredCycle := true }
  | [] =>
    match loadActiveProjects store with
    | p :: _ =>
      let st := { p with gregDirection := some text, lastActivity := now }
      { action := .attachedToActive st, saves := [(p, st)], triggeredCycle := true }
    | [] =>
      { action := .onboardingCycle, saves := [], triggeredCycle := true }

/-! ### Cycle scheduler (src/index.js `dispatchCycle`, lines 73-124) -/

/-- Oracles for one `dispatchCycle` tick: loading the active project ids
(which may throw), the waiting ids (a throw there propagates, modelled by
`Except` too), onboarding (may throw), and per-project processing results
(a throw is caught at the per-project boundary). -/
structure CycleEnv where
  loadActive : Except String (List String)
  loadWaiting : Except String (List String)
  onboard : Except String String
  processResult : String → Except String Unit

/-- How a cycle ended (all normal returns; a propagated exception is the
`Except.error` case of `dispatchCycle` itself). -/
inductive CycleOutcome
  | skipped
  | loadFailed
  | waitingOnly
  | onboardFailed
  | ran (onboarded : Bool) (projects : List String) (failures : List String)
deriving DecidableEq

/-- The ids actually processed by an outcome (empty unless the cycle ran). -/
def CycleOutcome.processed : CycleOutcome → List String
  | .ran _ projects _ => projects
  | _ => []

/-- `dispatchCycle` (src/index.js lines 73-124): the in-flight guard
(`cycleRunning`), the body, and the `finally` that clears the flag on every
exit path — including a propagated exception from `loadWaitingProjects`.
Returns the flag value after the call and the body's outcome. -/
def dispatchCycle (cycleRunning : Bool) (env : CycleEnv) :
    Bool × Except String CycleOutcome :=
  if cycleRunning then
    (cycleRunning, .ok .skipped)
  else
    -- cycleRunning := true; try { body } finally { cycleRunning := false }
    let body : Except String CycleOutcome :=
      match env.loadActive with
      | .error _ => .ok .loadFailed
      | .ok ids =>
        if ids.isEmpty then
          match env.loadWaiting with
          | .error e => .error e
          | .ok waiting =>
            if !waiting.isEmpty then .ok .waitingOnly
            else
              match env.onboard with
              | .error _ => .ok .onboardFailed
              | .ok newId =>
                let failures := [newId].filter
                  (fun pid => (env.processResult pid).isOk = false)
                .ok (.ran true [newId] failures)
        else
          let failures := ids.filter
            (fun pid => (env.processResult pid).isOk = false)
          .ok (.ran false ids failures)
    (false, body)

/-! ### Documented status transitions (spec section 8, first property) -/

/-- The documented status edges: `active→waiting_input`,
`waiting_input→active`, `active→active`, `completed→active`. -/
def edgeOK : Status → Status → Bool
  | .active, .waiting_input => true
  | .waiting_input, .active => true
  | .active, .active => true
  | .completed, .active => true
  | _, _ => false

/-- Every consecutive pair in `from` followed by the statuses of the saved
states is a documented edge. -/
def chainOK : Status → List ProjectState → Bool
  | _, [] => true
  | s, st :: rest => edgeOK s st.status && chainOK st.status rest

/-- The status after traversing a list of saves. -/
def lastStatus : Status → List ProjectState → Status
  | s, [] => s
  | _, st :: rest => lastStatus st.status rest

/-! ### Helper lemmas -/

theorem chainOK_append (l₁ : List ProjectState) (s : Status) (l₂ : List ProjectState) :
    chainOK s (l₁ ++ l₂) = (chainOK s l₁ && chainOK (lastStatus s l₁) l₂) := by
  induction l₁ generalizing s with
  | nil => simp [chainOK, lastStatus]
  | cons st rest ih => simp [chainOK, lastStatus, ih, Bool.and_assoc]

theorem lastStatus_append (l₁ : List ProjectState) (s : Status) (l₂ : List ProjectState) :
    lastStatus s (l₁ ++ l₂) = lastStatus (lastStatus s l₁) l₂ := by
  induction l₁ generalizing s with
  | nil => simp [lastStatus]
  | cons st rest ih => simp [lastStatus, ih]

@[simp] theorem escalatedState_status (st : ProjectState) :
    (escalatedState st).status = .waiting_input := rfl

@[simp] theorem escalatedState_inProgress (st : ProjectState) :
    (escalatedState st).inProgress = none := rfl

@[simp] theorem escalatedState_completed (st : ProjectState) :
    (escalatedState st).completed = st.completed := rfl

theorem injectIterationContext_fields (st : ProjectState) (ci : Nat)
    (br : List IterationBranch) :
    (injectIterationContext st ci br).status = st.status ∧
    (injectIterationContext st ci br).inProgress = st.inProgress ∧
    (injectIterationContext st ci br).completed = st.completed := by
  unfold injectIterationContext
  split <;> exact ⟨rfl, rfl, rfl⟩

theorem adoptGoal_fields (st : ProjectState) :
    (adoptGoal st).status = st.status ∧
    (adoptGoal st).inProgress = st.inProgress ∧
    (adoptGoal st).completed = st.completed := by
  unfold adoptGoal
  split <;> exact ⟨rfl, rfl, rfl⟩

theorem clearDirection_fst (st : ProjectState) :
    (clearDirection st).1.status = st.status ∧
    (clearDirection st).1.inProgress = st.inProgress ∧
    (clearDirection st).1.completed = st.completed := by
  unfold clearDirection
  split <;> exact ⟨rfl, rfl, rfl⟩

theorem clearDirection_snd (st : ProjectState) :
    (clearDirection st).2 = [] ∨ (clearDirection st).2 = [(clearDirection st).1] := by
  unfold clearDirection
  split
  · right; rfl
  · left; rfl

/-- The pre-execution bookkeeping preserves status, `inProgress` and the
completed list. -/
theorem stepPreState_fst (si : StepIn) :
    (stepPreState si).1.status = si.state.status ∧
    (stepPreState si).1.inProgress = si.state.inProgress ∧
    (stepPreState si).1.completed = si.state.completed := by
  unfold stepPreState
  have h₁ := injectIterationContext_fields si.state (si.currentIteration + 1) si.branches
  have h₂ := adoptGoal_fields (injectIterationContext si.state (si.currentIteration + 1) si.branches)
  have h₃ := clearDirection_fst (adoptGoal (injectIterationContext si.state (si.currentIteration + 1) si.branches))
  exact ⟨h₃.1.trans (h₂.1.trans h₁.1), h₃.2.1.trans (h₂.2.1.trans h₁.2.1),
    h₃.2.2.trans (h₂.2.2.trans h₁.2.2)⟩

theorem stepPreState_snd (si : StepIn) :
    (stepPreState si).2 = [] ∨ (stepPreState si).2 = [(stepPreState si).1] := by
  unfold stepPreState
  exact clearDirection_snd _

@[simp] theorem stepExecState_status (env : ProcEnv) (si : StepIn) :
    (stepExecState env si).status = si.state.status := by
  unfold stepExecState
  exact (stepPreState_fst si).1

@[simp] theorem stepExecState_completed (env : ProcEnv) (si : StepIn) :
    (stepExecState env si).completed = si.state.completed := by
  unfold stepExecState
  exact (stepPreState_fst si).2.2

/-- Equation: at the safety cap the loop escalates. -/
theorem reviewLoopGo_zero (env : ReviewEnv) (bh : Option String) (task : String)
    (rc : Nat) (st : ProjectState) (cur : ExecutionResult) (hist : List HistEntry) :
    reviewLoopGo env bh task 0 rc st cur hist =
      { result := .waiting, state := escalatedState st
        saves := [escalatedState st], asks := [safetyCapText task]
        rounds := 0, revCalls := 0 } := rfl

/-- Equation: an `approve` review finalizes the outcome. -/
theorem reviewLoopGo_approve (env : ReviewEnv) (bh : Option String) (task : String)
    (fuel rc : Nat) (st : ProjectState) (cur : ExecutionResult) (hist : List HistEntry)
    (h : (env.review cur.commitHash hist).decision = .approve) :
    reviewLoopGo env bh task (fuel + 1) rc st cur hist =
      { result := .approved
          { commitHash := cur.commitHash
            summary := strOr cur.summary (env.review cur.commitHash hist).summary
            filesChanged := cur.filesChanged, revisionCount := rc, beforeHash := bh }
        state := st, saves := [], asks := [], rounds := 1, revCalls := 0 } := by
  simp only [reviewLoopGo, h]

/-- Equation: an `ask_greg` review (the decision the spec names `escalate`)
persists the escalated state and returns the waiting sentinel. -/
theorem reviewLoopGo_askGreg (env : ReviewEnv) (bh : Option String) (task : String)
    (fuel rc : Nat) (st : ProjectState) (cur : ExecutionResult) (hist : List HistEntry)
    (h : (env.review cur.commitHash hist).decision = .ask_greg) :
    reviewLoopGo env bh task (fuel + 1) rc st cur hist =
      { result := .waiting, state := escalatedState st
        saves := [escalatedState st]
        asks := [askGregReviewText (env.review cur.commitHash hist)]
        rounds := 1, revCalls := 0 } := by
  simp only [reviewLoopGo, h]

/-- Equation: a `revise` review whose re-execution commits cleanly loops. -/
theorem reviewLoopGo_revise_ok (env : ReviewEnv) (bh : Option String) (task : String)
    (fuel rc : Nat) (st : ProjectState) (cur : ExecutionResult) (hist : List HistEntry)
    (h : (env.review cur.commitHash hist).decision = .revise)
    (hr : (env.reviseExec (env.review cur.commitHash hist) (rc + 1)).status = .completed ∧
      strTruthy (env.reviseExec (env.review cur.commitHash hist) (rc + 1)).commitHash = true) :
    reviewLoopGo env bh task (fuel + 1) rc st cur hist =
      (let rest := reviewLoopGo env bh task fuel (rc + 1) st
        (env.reviseExec (env.review cur.commitHash hist) (rc + 1))
        (pushHist hist (env.review cur.commitHash hist))
       { rest with rounds := rest.rounds + 1, revCalls := rest.revCalls + 1 }) := by
  simp only [reviewLoopGo, h, if_pos hr]

/-- Equation: a `revise` review whose re-execution fails to commit
escalates. -/
theorem reviewLoopGo_revise_fail (env : ReviewEnv) (bh : Option String) (task : String)
    (fuel rc : Nat) (st : ProjectState) (cur : ExecutionResult) (hist : List HistEntry)
    (h : (env.review cur.commitHash hist).decision = .revise)
    (hr : ¬((env.reviseExec (env.review cur.commitHash hist) (rc + 1)).status = .completed ∧
      strTruthy (env.reviseExec (env.review cur.commitHash hist) (rc + 1)).commitHash = true)) :
    reviewLoopGo env bh task (fuel + 1) rc st cur hist =
      { result := .waiting, state := escalatedState st
        saves := [escalatedState st]
        asks := [revisionFailedText task (rc + 1)]
        rounds := 1, revCalls := 1 } := by
  simp only [reviewLoopGo, h, if_neg hr]

/-- Shape of every `reviewLoopGo` exit: either an approved outcome with the
state untouched and nothing persisted, or the `waiting` sentinel with
exactly the escalated state persisted. -/
theorem reviewLoopGo_shape (env : ReviewEnv) (bh : Option String) (task : String) :
    ∀ (fuel rc : Nat) (st : ProjectState) (cur : ExecutionResult) (hist : List HistEntry),
      (∃ out, (reviewLoopGo env bh task fuel rc st cur hist).result = .approved out ∧
        (reviewLoopGo env bh task fuel rc st cur hist).state = st ∧
        (reviewLoopGo env bh task fuel rc st cur hist).saves = []) ∨
      ((reviewLoopGo env bh task fuel rc st cur hist).result = .waiting ∧
        (reviewLoopGo env bh task fuel rc st cur hist).state = escalatedState st ∧
        (reviewLoopGo env bh task fuel rc st cur hist).saves = [escalatedState st]) := by
  intro fuel
  induction fuel with
  | zero =>
    intro rc st cur hist
    right
    rw [reviewLoopGo_zero]
    exact ⟨rfl, rfl, rfl⟩
  | succ fuel ih =>
    intro rc st cur hist
    rcases hdec : (env.review cur.commitHash hist).decision with _ | _ | _
    · rw [reviewLoopGo_approve env bh task fuel rc st cur hist hdec]
      exact Or.inl ⟨_, rfl, rfl, rfl⟩
    · by_cases hr : (env.reviseExec (env.review cur.commitHash hist) (rc + 1)).status = .completed ∧
        strTruthy (env.reviseExec (env.review cur.commitHash hist) (rc + 1)).commitHash = true
      · rw [reviewLoopGo_revise_ok env bh task fuel rc st cur hist hdec hr]
        exact ih (rc + 1) st _ _
      · rw [reviewLoopGo_revise_fail env bh task fuel rc st cur hist hdec hr]
        exact Or.inr ⟨rfl, rfl, rfl⟩
    · rw [reviewLoopGo_askGreg env bh task fuel rc st cur hist hdec]
      exact Or.inr ⟨rfl, rfl, rfl⟩

/-- Every state persisted by the revision loop is an escalated exit:
`status = waiting_input` and `inProgress` cleared, with the completed list
untouched. -/
theorem reviewLoopGo_saves (env : ReviewEnv) (bh : Option String) (task : String)
    (fuel rc : Nat) (st : ProjectState) (cur : ExecutionResult) (hist : List HistEntry) :
    ∀ s ∈ (reviewLoopGo env bh task fuel rc st cur hist).saves,
      s.status = .waiting_input ∧ s.inProgress = none ∧ s.completed = st.completed := by
  rcases reviewLoopGo_shape env bh task fuel rc st cur hist with
    ⟨_, _, _, h₃⟩ | ⟨_, h₂, h₃⟩ <;> rw [h₃]
  · intro s hs; cases hs
  · intro s hs
    rcases List.mem_singleton.mp hs with rfl
    exact ⟨rfl, rfl, rfl⟩

/-- Under an all-`revise` review agent whose re-executions all commit
cleanly, the loop runs its full remaining budget and exits through the
safety cap. -/
theorem reviewLoopGo_allRevise (env : ReviewEnv) (bh : Option String) (task : String)
    (h₁ : ∀ c h, (env.review c h).decision = .revise)
    (h₂ : ∀ rv n, (env.reviseExec rv n).status = .completed ∧
      strTruthy (env.reviseExec rv n).commitHash = true) :
    ∀ (fuel rc : Nat) (st : ProjectState) (cur : ExecutionResult) (hist : List HistEntry),
      reviewLoopGo env bh task fuel rc st cur hist =
        { result := .waiting, state := escalatedState st
          saves := [escalatedState st], asks := [safetyCapText task]
          rounds := fuel, revCalls := fuel } := by
  intro fuel
  induction fuel with
  | zero =>
    intro rc st cur hist
    rfl
  | succ fuel ih =>
    intro rc st cur hist
    rw [reviewLoopGo_revise_ok env bh task fuel rc st cur hist (h₁ _ _) (h₂ _ _)]
    rw [ih]

/-! ### procStep equation lemmas, one per branch of the loop body -/

theorem procStep_time (env : ProcEnv) (mi tb : Nat) (si : StepIn)
    (ht : tb > 0 ∧ env.timeRemTop si.k < 60000) :
    procStep env mi tb si =
      { kind := .brk, state := si.state, currentIteration := si.currentIteration + 1
        branches := si.branches, saves := [], asks := [], errs := []
        execCalls := 0, revCalls := 0, rounds := 0 } := by
  simp only [procStep, if_pos ht]

theorem procStep_escalate (env : ProcEnv) (mi tb : Nat) (si : StepIn)
    (ht : ¬(tb > 0 ∧ env.timeRemTop si.k < 60000))
    (he : escalationNeeded (env.decide si.k) = true) :
    procStep env mi tb si =
      { kind := .ret, state := { (stepPreState si).1 with status := .waiting_input }
        currentIteration := si.currentIteration + 1, branches := si.branches
        saves := (stepPreState si).2 ++ [{ (stepPreState si).1 with status := .waiting_input }]
        asks := [decisionQuestion (env.decide si.k)], errs := []
        execCalls := 0, revCalls := 0, rounds := 0 } := by
  simp only [procStep, if_neg ht, he, if_pos]

theorem procStep_waiting (env : ProcEnv) (mi tb : Nat) (si : StepIn)
    (ht : ¬(tb > 0 ∧ env.timeRemTop si.k < 60000))
    (he : escalationNeeded (env.decide si.k) = false)
    (hx : (env.exec si.k).status = .completed ∧ strTruthy (env.exec si.k).commitHash = true)
    (hw : (stepReview env si).result = .waiting) :
    procStep env mi tb si =
      { kind := .ret, state := (stepReview env si).state
        currentIteration := si.currentIteration + 1, branches := si.branches
        saves := (stepPreState si).2 ++ [stepExecState env si] ++ (stepReview env si).saves
        asks := (stepReview env si).asks, errs := []
        execCalls := 1, revCalls := (stepReview env si).revCalls
        rounds := (stepReview env si).rounds } := by
  simp only [procStep, if_neg ht, he, Bool.false_eq_true, if_false, if_pos hx, hw]

theorem procStep_approved (env : ProcEnv) (mi tb : Nat) (si : StepIn) (out : Finalized)
    (ht : ¬(tb > 0 ∧ env.timeRemTop si.k < 60000))
    (he : escalationNeeded (env.decide si.k) = false)
    (hx : (env.exec si.k).status = .completed ∧ strTruthy (env.exec si.k).commitHash = true)
    (ha : (stepReview env si).result = .approved out) :
    procStep env mi tb si =
      { kind := if tb = 0 then .brk else .cont
        state := { (stepReview env si).state with
          completed := (stepReview env si).state.completed ++
            [{ task := (env.decide si.k).nextStep.task, completedAt := env.now si.k
               commitHash := out.commitHash, revisions := out.revisionCount
               iteration := if mi > 1 then some (si.currentIteration + 1) else none }]
          inProgress := none, lastActivity := env.now si.k }
        currentIteration :=
          if (env.decide si.k).nextStep.isPrerequisite then si.currentIteration
          else si.currentIteration + 1
        branches :=
          if (env.decide si.k).nextStep.isPrerequisite then si.branches
          else if mi > 1 ∧ si.currentIteration + 1 < mi ∧
              (tb = 0 ∨ env.timeRemBranch si.k > 60000) then
            if env.gitOk si.k then
              si.branches ++
                [{ branch := "iteration-" ++ toString (si.currentIteration + 1)
                   summary := out.summary, commitHash := out.commitHash }]
            else si.branches
          else si.branches
        saves := (stepPreState si).2 ++ [stepExecState env si] ++ (stepReview env si).saves ++
          [{ (stepReview env si).state with
             completed := (stepReview env si).state.completed ++
               [{ task := (env.decide si.k).nextStep.task, completedAt := env.now si.k
                  commitHash := out.commitHash, revisions := out.revisionCount
                  iteration := if mi > 1 then some (si.currentIteration + 1) else none }]
             inProgress := none, lastActivity := env.now si.k }]
        asks := (stepReview env si).asks, errs := []
        execCalls := 1, revCalls := (stepReview env si).revCalls
        rounds := (stepReview env si).rounds } := by
  simp only [procStep, if_neg ht, he, Bool.false_eq_true, if_false, if_pos hx, ha,
    Nat.add_sub_cancel]

theorem procStep_noCommit (env : ProcEnv) (mi tb : Nat) (si : StepIn)
    (ht : ¬(tb > 0 ∧ env.timeRemTop si.k < 60000))
    (he : escalationNeeded (env.decide si.k) = false)
    (hc : (env.exec si.k).status = .completed)
    (hx : strTruthy (env.exec si.k).commitHash = false) :
    procStep env mi tb si =
      { kind := .ret
        state := { stepExecState env si with status := .waiting_input, inProgress := none }
        currentIteration := si.currentIteration + 1, branches := si.branches
        saves := (stepPreState si).2 ++ [stepExecState env si,
          { stepExecState env si with status := .waiting_input, inProgress := none }]
        asks := [noCommitText (env.decide si.k).nextStep.task], errs := []
        execCalls := 1, revCalls := 0, rounds := 0 } := by
  have hnx : ¬((env.exec si.k).status = .completed ∧
      strTruthy (env.exec si.k).commitHash = true) := by
    intro h
    rw [hx] at h
    exact absurd h.2 (by simp)
  simp only [procStep, if_neg ht, he, Bool.false_eq_true, if_false, if_neg hnx, if_pos hc,
    List.append_assoc, List.singleton_append]

theorem procStep_needsInput (env : ProcEnv) (mi tb : Nat) (si : StepIn)
    (ht : ¬(tb > 0 ∧ env.timeRemTop si.k < 60000))
    (he : escalationNeeded (env.decide si.k) = false)
    (hn : (env.exec si.k).status = .needs_input) :
    procStep env mi tb si =
      { kind := .ret
        state := { stepExecState env si with status := .waiting_input, inProgress := none }
        currentIteration := si.currentIteration + 1, branches := si.branches
        saves := (stepPreState si).2 ++ [stepExecState env si,
          { stepExecState env si with status := .waiting_input, inProgress := none }]
        asks := [needsInputQuestion (env.exec si.k)], errs := []
        execCalls := 1, revCalls := 0, rounds := 0 } := by
  have hnc : (env.exec si.k).status ≠ .completed := by rw [hn]; intro h; cases h
  have hnx : ¬((env.exec si.k).status = .completed ∧
      strTruthy (env.exec si.k).commitHash = true) := fun h => hnc h.1
  simp only [procStep, if_neg ht, he, Bool.false_eq_true, if_false, if_neg hnx, if_neg hnc,
    if_pos hn, List.append_assoc, List.singleton_append]

theorem procStep_failed (env : ProcEnv) (mi tb : Nat) (si : StepIn)
    (ht : ¬(tb > 0 ∧ env.timeRemTop si.k < 60000))
    (he : escalationNeeded (env.decide si.k) = false)
    (hf : (env.exec si.k).status = .failed) :
    procStep env mi tb si =
      { kind := .ret
        state := { stepExecState env si with inProgress := none }
        currentIteration := si.currentIteration + 1, branches := si.branches
        saves := (stepPreState si).2 ++ [stepExecState env si,
          { stepExecState env si with inProgress := none }]
        asks := [], errs := [(env.exec si.k).summary]
        execCalls := 1, revCalls := 0, rounds := 0 } := by
  have hnc : (env.exec si.k).status ≠ .completed := by rw [hf]; intro h; cases h
  have hnn : (env.exec si.k).status ≠ .needs_input := by rw [hf]; intro h; cases h
  have hnx : ¬((env.exec si.k).status = .completed ∧
      strTruthy (env.exec si.k).commitHash = true) := fun h => hnc h.1
  simp only [procStep, if_neg ht, he, Bool.false_eq_true, if_false, if_neg hnx, if_neg hnc,
    if_neg hnn, List.append_assoc, List.singleton_append]

/-! ### procStep invariants -/

/-- Saves performed before execution keep the entry status and slot. -/
theorem stepPre_saves (si : StepIn) (hs : si.state.status = .active) :
    chainOK .active (stepPreState si).2 = true ∧
    lastStatus .active (stepPreState si).2 = .active ∧
    (∀ s ∈ (stepPreState si).2, s.status = .active ∧ s.inProgress = si.state.inProgress) := by
  rcases stepPreState_snd si with h | h <;> rw [h]
  · exact ⟨rfl, rfl, by intro s hs'; cases hs'⟩
  · have hf := stepPreState_fst si
    refine ⟨?_, ?_, ?_⟩
    · simp [chainOK, edgeOK, hf.1, hs]
    · simp [lastStatus, hf.1, hs]
    · intro s hmem
      rcases List.mem_singleton.mp hmem with rfl
      exact ⟨hf.1.trans hs, hf.2.1⟩

theorem stepExecState_status_active (env : ProcEnv) (si : StepIn)
    (hs : si.state.status = .active) : (stepExecState env si).status = .active :=
  (stepExecState_status env si).trans hs

/-- Shape of the review loop called from the step. -/
theorem stepReview_shape (env : ProcEnv) (si : StepIn) :
    (∃ out, (stepReview env si).result = .approved out ∧
      (stepReview env si).state = stepExecState env si ∧
      (stepReview env si).saves = []) ∨
    ((stepReview env si).result = .waiting ∧
      (stepReview env si).state = escalatedState (stepExecState env si) ∧
      (stepReview env si).saves = [escalatedState (stepExecState env si)]) := by
  unfold stepReview reviewLoop
  exact reviewLoopGo_shape _ _ _ _ _ _ _ _

/-- Every status written by one loop-body run follows the documented
edges, the final status is the last one persisted, and a run that keeps
looping leaves the project `active`. -/
theorem procStep_chain (env : ProcEnv) (mi tb : Nat) (si : StepIn)
    (hs : si.state.status = .active) :
    chainOK .active (procStep env mi tb si).saves = true ∧
    lastStatus .active (procStep env mi tb si).saves = (procStep env mi tb si).state.status ∧
    ((procStep env mi tb si).kind ≠ .ret → (procStep env mi tb si).state.status = .active) := by
  have hpre := stepPre_saves si hs
  by_cases ht : tb > 0 ∧ env.timeRemTop si.k < 60000
  · rw [procStep_time env mi tb si ht]
    refine ⟨rfl, ?_, fun _ => hs⟩
    simpa [lastStatus] using hs.symm
  · by_cases he : escalationNeeded (env.decide si.k) = true
    · rw [procStep_escalate env mi tb si ht he]
      refine ⟨?_, ?_, fun h => absurd rfl h⟩
      · rw [chainOK_append, hpre.1, hpre.2.1]
        simp [chainOK, edgeOK]
      · rw [lastStatus_append, hpre.2.1]
        simp [lastStatus]
    · have he' : escalationNeeded (env.decide si.k) = false := by simpa using he
      have hexst := stepExecState_status_active env si hs
      by_cases hx : (env.exec si.k).status = .completed ∧
          strTruthy (env.exec si.k).commitHash = true
      · rcases hres : (stepReview env si).result with out | _
        · -- approved
          rcases stepReview_shape env si with ⟨out', h₁, h₂, h₃⟩ | ⟨h₁, h₂, h₃⟩
          · rw [procStep_approved env mi tb si out ht he' hx hres]
            refine ⟨?_, ?_, fun _ => ?_⟩ <;>
              simp [chainOK_append, lastStatus_append, chainOK, lastStatus, edgeOK,
                hpre.1, hpre.2.1, h₂, h₃, hexst, hs]
          · rw [hres] at h₁; cases h₁
        · -- waiting
          rcases stepReview_shape env si with ⟨out', h₁, h₂, h₃⟩ | ⟨h₁, h₂, h₃⟩
          · rw [hres] at h₁; cases h₁
          · rw [procStep_waiting env mi tb si ht he' hx hres]
            refine ⟨?_, ?_, fun h => absurd rfl h⟩ <;>
              simp [chainOK_append, lastStatus_append, chainOK, lastStatus, edgeOK,
                hpre.1, hpre.2.1, h₂, h₃, hexst, hs]
      · rcases hst : (env.exec si.k).status with _ | _ | _
        · have hxf : strTruthy (env.exec si.k).commitHash = false := by
            rcases Bool.eq_false_or_eq_true (strTruthy (env.exec si.k).commitHash) with h | h
            · exact absurd ⟨hst, h⟩ hx
            · exact h
          rw [procStep_noCommit env mi tb si ht he' hst hxf]
          refine ⟨?_, ?_, fun h => absurd rfl h⟩ <;>
            simp [chainOK_append, lastStatus_append, chainOK, lastStatus, edgeOK,
              hpre.1, hpre.2.1, hexst, hs]
        · rw [procStep_needsInput env mi tb si ht he' hst]
          refine ⟨?_, ?_, fun h => absurd rfl h⟩ <;>
            simp [chainOK_append, lastStatus_append, chainOK, lastStatus, edgeOK,
              hpre.1, hpre.2.1, hexst, hs]
        · rw [procStep_failed env mi tb si ht he' hst]
          refine ⟨?_, ?_, fun h => absurd rfl h⟩ <;>
            simp [chainOK_append, lastStatus_append, chainOK, lastStatus, edgeOK,
              hpre.1, hpre.2.1, hexst, hs]

/-- Every state persisted by one loop-body run keeps `inProgress` non-null
only under `status = active`, and a run that keeps looping leaves the slot
cleared. -/
theorem procStep_inprog (env : ProcEnv) (mi tb : Nat) (si : StepIn)
    (hs : si.state.status = .active) (hip : si.state.inProgress = none) :
    (∀ s ∈ (procStep env mi tb si).saves, s.inProgress ≠ none → s.status = .active) ∧
    ((procStep env mi tb si).state.inProgress ≠ none →
      (procStep env mi tb si).state.status = .active) ∧
    ((procStep env mi tb si).kind ≠ .ret →
      (procStep env mi tb si).state.inProgress = none ∧
      (procStep env mi tb si).state.status = .active) := by
  have hpre := stepPre_saves si hs
  have hpreP : ∀ s ∈ (stepPreState si).2, s.inProgress ≠ none → s.status = .active :=
    fun s hm _ => (hpre.2.2 s hm).1
  have hexst := stepExecState_status_active env si hs
  have hpre1ip : (stepPreState si).1.inProgress = none :=
    (stepPreState_fst si).2.1.trans hip
  by_cases ht : tb > 0 ∧ env.timeRemTop si.k < 60000
  · rw [procStep_time env mi tb si ht]
    exact ⟨(by intro s hm; cases hm), fun _ => hs, fun _ => ⟨hip, hs⟩⟩
  · by_cases he : escalationNeeded (env.decide si.k) = true
    · rw [procStep_escalate env mi tb si ht he]
      refine ⟨?_, ?_, fun h => absurd rfl h⟩
      · intro s hm
        rcases List.mem_append.mp hm with hm | hm
        · exact hpreP s hm
        · rcases List.mem_singleton.mp hm with rfl
          intro h
          exact absurd hpre1ip (by simpa using h)
      · intro h
        exact absurd hpre1ip (by simpa using h)
    · have he' : escalationNeeded (env.decide si.k) = false := by simpa using he
      by_cases hx : (env.exec si.k).status = .completed ∧
          strTruthy (env.exec si.k).commitHash = true
      · rcases hres : (stepReview env si).result with out | _
        · rcases stepReview_shape env si with ⟨out', h₁, h₂, h₃⟩ | ⟨h₁, h₂, h₃⟩
          · rw [procStep_approved env mi tb si out ht he' hx hres]
            refine ⟨?_, fun h => absurd rfl h,
              fun _ => ⟨rfl, (congrArg ProjectState.status h₂).trans hexst⟩⟩
            intro s hm
            rw [h₃] at hm
            rcases List.mem_append.mp hm with hm | hm
            · rcases List.mem_append.mp hm with hm | hm
              · rcases List.mem_append.mp hm with hm | hm
                · exact hpreP s hm
                · rcases List.mem_singleton.mp hm with rfl
                  exact fun _ => hexst
              · cases hm
            · rcases List.mem_singleton.mp hm with rfl
              exact fun h => absurd rfl h
          · rw [hres] at h₁; cases h₁
        · rcases stepReview_shape env si with ⟨out', h₁, h₂, h₃⟩ | ⟨h₁, h₂, h₃⟩
          · rw [hres] at h₁; cases h₁
          · rw [procStep_waiting env mi tb si ht he' hx hres]
            refine ⟨?_, ?_, fun h => absurd rfl h⟩
            · intro s hm
              rw [h₃] at hm
              rcases List.mem_append.mp hm with hm | hm
              · rcases List.mem_append.mp hm with hm | hm
                · exact hpreP s hm
                · rcases List.mem_singleton.mp hm with rfl
                  exact fun _ => hexst
              · rcases List.mem_singleton.mp hm with rfl
                exact fun h => absurd rfl h
            · rw [h₂]
              exact fun h => absurd rfl h
      · rcases hst : (env.exec si.k).status with _ | _ | _
        · have hxf : strTruthy (env.exec si.k).commitHash = false := by
            rcases Bool.eq_false_or_eq_true (strTruthy (env.exec si.k).commitHash) with h | h
            · exact absurd ⟨hst, h⟩ hx
            · exact h
          rw [procStep_noCommit env mi tb si ht he' hst hxf]
          refine ⟨?_, fun h => absurd rfl h, fun h => absurd rfl h⟩
          intro s hm
          rcases List.mem_append.mp hm with hm | hm
          · exact hpreP s hm
          · rcases List.mem_cons.mp hm with rfl | hm
            · exact fun _ => hexst
            · rcases List.mem_singleton.mp hm with rfl
              exact fun h => absurd rfl h
        · rw [procStep_needsInput env mi tb si ht he' hst]
          refine ⟨?_, fun h => absurd rfl h, fun h => absurd rfl h⟩
          intro s hm
          rcases List.mem_append.mp hm with hm | hm
          · exact hpreP s hm
          · rcases List.mem_cons.mp hm with rfl | hm
            · exact fun _ => hexst
            · rcases List.mem_singleton.mp hm with rfl
              exact fun h => absurd rfl h
        · rw [procStep_failed env mi tb si ht he' hst]
          refine ⟨?_, fun h => absurd rfl h, fun h => absurd rfl h⟩
          intro s hm
          rcases List.mem_append.mp hm with hm | hm
          · exact hpreP s hm
          · rcases List.mem_cons.mp hm with rfl | hm
            · exact fun _ => hexst
            · rcases List.mem_singleton.mp hm with rfl
              exact fun h => absurd rfl h

/-- An `IterationBranch` is recorded by a loop-body run only when
`maxIterations > 1`, the decision is not a prerequisite, iterations remain
and the time budget allows (unbounded, or over a minute left) — and then
exactly one branch capturing the approved commit is appended. -/
theorem procStep_branches (env : ProcEnv) (mi tb : Nat) (si : StepIn) :
    (procStep env mi tb si).branches = si.branches ∨
    (1 < mi ∧ (env.decide si.k).nextStep.isPrerequisite = false ∧
      si.currentIteration + 1 < mi ∧ (tb = 0 ∨ env.timeRemBranch si.k > 60000) ∧
      ∃ out, (stepReview env si).result = .approved out ∧
        (procStep env mi tb si).branches = si.branches ++
          [{ branch := "iteration-" ++ toString (si.currentIteration + 1)
             summary := out.summary, commitHash := out.commitHash }]) := by
  by_cases ht : tb > 0 ∧ env.timeRemTop si.k < 60000
  · rw [procStep_time env mi tb si ht]; left; rfl
  · by_cases he : escalationNeeded (env.decide si.k) = true
    · rw [procStep_escalate env mi tb si ht he]; left; rfl
    · have he' : escalationNeeded (env.decide si.k) = false := by simpa using he
      by_cases hx : (env.exec si.k).status = .completed ∧
          strTruthy (env.exec si.k).commitHash = true
      · rcases hres : (stepReview env si).result with out | _
        · rw [procStep_approved env mi tb si out ht he' hx hres]
          by_cases hp : (env.decide si.k).nextStep.isPrerequisite = true
          · left; simp [hp]
          · have hp' : (env.decide si.k).nextStep.isPrerequisite = false := by simpa using hp
            by_cases hcond : 1 < mi ∧ si.currentIteration + 1 < mi ∧
                (tb = 0 ∨ env.timeRemBranch si.k > 60000)
            · by_cases hgit : env.gitOk si.k = true
              · right
                exact ⟨hcond.1, hp', hcond.2.1, hcond.2.2,
                  out, rfl, by simp [hp', hcond, hgit]⟩
              · left
                have hgit' : env.gitOk si.k = false := by simpa using hgit
                simp [hp', hcond, hgit']
            · left
              have : ¬(mi > 1 ∧ si.currentIteration + 1 < mi ∧
                  (tb = 0 ∨ env.timeRemBranch si.k > 60000)) := hcond
              simp [hp', this]
        · rw [procStep_waiting env mi tb si ht he' hx hres]; left; rfl
      · rcases hst : (env.exec si.k).status with _ | _ | _
        · have hxf : strTruthy (env.exec si.k).commitHash = false := by
            rcases Bool.eq_false_or_eq_true (strTruthy (env.exec si.k).commitHash) with h | h
            · exact absurd ⟨hst, h⟩ hx
            · exact h
          rw [procStep_noCommit env mi tb si ht he' hst hxf]; left; rfl
        · rw [procStep_needsInput env mi tb si ht he' hst]; left; rfl
        · rw [procStep_failed env mi tb si ht he' hst]; left; rfl

/-! ### Iteration-loop invariants -/

/-- Status edges are respected across the whole iteration loop. -/
theorem procLoop_chain (env : ProcEnv) (mi tb : Nat) :
    ∀ (fuel : Nat) (si : StepIn), si.state.status = .active →
      chainOK .active (procLoop env mi tb fuel si).saves = true := by
  intro fuel
  induction fuel with
  | zero => intro si hs; rfl
  | succ fuel ih =>
    intro si hs
    by_cases hlt : si.currentIteration < mi
    · have hstep := procStep_chain env mi tb si hs
      rcases hk : (procStep env mi tb si).kind with _ | _ | _
      · simp only [procLoop, if_pos hlt, hk]
        exact hstep.1
      · simp only [procLoop, if_pos hlt, hk]
        exact hstep.1
      · have hk' : (procStep env mi tb si).kind ≠ .ret := by rw [hk]; intro h; cases h
        have hact := hstep.2.2 hk'
        simp only [procLoop, if_pos hlt, hk]
        rw [chainOK_append, hstep.1, hstep.2.1, hact]
        rw [ih _ hact]
        rfl
    · simp only [procLoop, if_neg hlt]
      rfl

/-- `inProgress` is non-null only under `status = active` across the whole
iteration loop. -/
theorem procLoop_inprog (env : ProcEnv) (mi tb : Nat) :
    ∀ (fuel : Nat) (si : StepIn), si.state.status = .active →
      si.state.inProgress = none →
      (∀ s ∈ (procLoop env mi tb fuel si).saves,
        s.inProgress ≠ none → s.status = .active) ∧
      ((procLoop env mi tb fuel si).state.inProgress ≠ none →
        (procLoop env mi tb fuel si).state.status = .active) := by
  intro fuel
  induction fuel with
  | zero =>
    intro si hs hip
    exact ⟨(by intro s hm; cases hm), fun h => absurd hip h⟩
  | succ fuel ih =>
    intro si hs hip
    by_cases hlt : si.currentIteration < mi
    · have hstep := procStep_inprog env mi tb si hs hip
      rcases hk : (procStep env mi tb si).kind with _ | _ | _
      · simp only [procLoop, if_pos hlt, hk]
        exact ⟨hstep.1, hstep.2.1⟩
      · simp only [procLoop, if_pos hlt, hk]
        exact ⟨hstep.1, hstep.2.1⟩
      · have hk' : (procStep env mi tb si).kind ≠ .ret := by rw [hk]; intro h; cases h
        have hnext := hstep.2.2 hk'
        have ihx := ih { state := (procStep env mi tb si).state
                         currentIteration := (procStep env mi tb si).currentIteration
                         branches := (procStep env mi tb si).branches
                         k := si.k + 1 } hnext.2 hnext.1
        simp only [procLoop, if_pos hlt, hk]
        refine ⟨?_, ihx.2⟩
        intro s hm
        rcases List.mem_append.mp hm with hm | hm
        · exact hstep.1 s hm
        · exact ihx.1 s hm
    · simp only [procLoop, if_neg hlt]
      exact ⟨(by intro s hm; cases hm), fun h => absurd hip h⟩

/-- With an effective `maxIterations` of 1 the loop never records an
iteration branch. -/
theorem procLoop_branches_eq (env : ProcEnv) (mi tb : Nat) (hmi : ¬1 < mi) :
    ∀ (fuel : Nat) (si : StepIn),
      (procLoop env mi tb fuel si).branches = si.branches := by
  intro fuel
  induction fuel with
  | zero => intro si; rfl
  | succ fuel ih =>
    intro si
    by_cases hlt : si.currentIteration < mi
    · have hb : (procStep env mi tb si).branches = si.branches := by
        rcases procStep_branches env mi tb si with h | ⟨h1, _⟩
        · exact h
        · exact absurd h1 hmi
      rcases hk : (procStep env mi tb si).kind with _ | _ | _
      · simp only [procLoop, if_pos hlt, hk]
        exact hb
      · simp only [procLoop, if_pos hlt, hk]
        exact hb
      · simp only [procLoop, if_pos hlt, hk]
        rw [ih]
        exact hb
    · simp only [procLoop, if_neg hlt]

/-! ### processProject-level invariants -/

@[simp] theorem goalReset_status (p : GoalParse) (st : ProjectState) :
    (goalReset p st).status = .active := rfl

@[simp] theorem goalReset_inProgress (p : GoalParse) (st : ProjectState) :
    (goalReset p st).inProgress = st.inProgress := rfl

theorem effMi_pos (n : Nat) : 0 < (if n = 0 then 1 else n) := by
  split
  · exact Nat.one_pos
  · omega

/-- Status edges are respected by a whole `processProject` run from any
non-`paused` entry state (the scheduler only hands the state machine
`active` projects; `completed` and `waiting_input` entries are handled by
the documented completed→active reset and the skip). -/
theorem processProject_chain (env : ProcEnv) (fuel : Nat) (st0 : ProjectState)
    (hp : st0.status ≠ .paused) :
    chainOK st0.status (processProject env fuel st0).saves = true := by
  rcases hst : st0.status with _ | _ | _ | _
  · -- active
    simp only [processProject, hst]
    exact procLoop_chain env (if st0.maxIterations = 0 then 1 else st0.maxIterations)
      (st0.timeBudget * 60 * 1000) fuel
      { state := st0, currentIteration := 0, branches := [], k := 0 } hst
  · exact absurd hst hp
  · -- completed
    simp only [processProject, hst]
    exact procLoop_chain env
      (if (goalReset env.parsedGoal st0).maxIterations = 0 then 1
        else (goalReset env.parsedGoal st0).maxIterations)
      ((goalReset env.parsedGoal st0).timeBudget * 60 * 1000) fuel
      { state := goalReset env.parsedGoal st0, currentIteration := 0
        branches := [], k := 0 } rfl
  · -- waiting_input
    simp only [processProject, hst]
    rfl

/-- `inProgress` is non-null only under `status = active` across a whole
`processProject` run entered with a clear slot. -/
theorem processProject_inprog (env : ProcEnv) (fuel : Nat) (st0 : ProjectState)
    (hp : st0.status ≠ .paused) (hip : st0.inProgress = none) :
    (∀ s ∈ (processProject env fuel st0).saves,
      s.inProgress ≠ none → s.status = .active) ∧
    ((processProject env fuel st0).state.inProgress ≠ none →
      (processProject env fuel st0).state.status = .active) := by
  rcases hst : st0.status with _ | _ | _ | _
  · -- active
    simp only [processProject, hst]
    exact procLoop_inprog env (if st0.maxIterations = 0 then 1 else st0.maxIterations)
      (st0.timeBudget * 60 * 1000) fuel
      { state := st0, currentIteration := 0, branches := [], k := 0 } hst hip
  · exact absurd hst hp
  · -- completed
    simp only [processProject, hst]
    have hloop := procLoop_inprog env
      (if (goalReset env.parsedGoal st0).maxIterations = 0 then 1
        else (goalReset env.parsedGoal st0).maxIterations)
      ((goalReset env.parsedGoal st0).timeBudget * 60 * 1000) fuel
      { state := goalReset env.parsedGoal st0, currentIteration := 0
        branches := [], k := 0 } rfl ((goalReset_inProgress env.parsedGoal st0).trans hip)
    refine ⟨?_, hloop.2⟩
    intro s hm
    rcases List.mem_cons.mp hm with rfl | hm
    · exact fun _ => rfl
    · exact hloop.1 s hm
  · -- waiting_input
    simp only [processProject, hst]
    exact ⟨(by intro s hm; cases hm), fun h => absurd hip h⟩

/-- A project whose `maxIterations` is at most 1 never records an
iteration branch. -/
theorem processProject_branches_nil (env : ProcEnv) (fuel : Nat) (st0 : ProjectState)
    (hmi : st0.maxIterations ≤ 1) :
    (processProject env fuel st0).branches = [] := by
  have hmi' : ¬1 < (if st0.maxIterations = 0 then 1 else st0.maxIterations) := by
    split <;> omega
  rcases hst : st0.status with _ | _ | _ | _
  · simp only [processProject, hst]
    exact procLoop_branches_eq env _ _ hmi' fuel
      { state := st0, currentIteration := 0, branches := [], k := 0 }
  · simp only [processProject, hst]
    exact procLoop_branches_eq env _ _ hmi' fuel
      { state := st0, currentIteration := 0, branches := [], k := 0 }
  · -- completed: the goal reset preserves maxIterations
    simp only [processProject, hst]
    exact procLoop_branches_eq env _ _ hmi' fuel
      { state := goalReset env.parsedGoal st0, currentIteration := 0
        branches := [], k := 0 }
  · simp only [processProject, hst]
    rfl

theorem getLast?_append_singleton (l : List ProjectState) (a : ProjectState) :
    (l ++ [a]).getLast? = some a := by
  induction l with
  | nil => rfl
  | cons x xs ih =>
    rw [List.cons_append]
    cases hxs : xs ++ [a] with
    | nil => exact absurd hxs (by simp)
    | cons y ys =>
      rw [List.getLast?_cons_cons]
      rw [hxs] at ih
      exact ih

theorem reviewWorkFrom_le (attempts : Nat → Option RawReview) :
    ∀ fuel, (reviewWorkFrom attempts fuel).attemptsMade ≤ fuel := by
  intro fuel
  induction fuel with
  | zero => exact Nat.le_refl 0
  | succ fuel ih =>
    simp only [reviewWorkFrom]
    cases attempts (3 - fuel) with
    | some raw => simp
    | none =>
      by_cases hf : fuel = 0
      · simp [hf]
      · simp only [if_neg hf]
        exact Nat.succ_le_succ ih

/-! ### Concrete fixtures shared by the claim witnesses -/

def wState : ProjectState :=
  { projectId := "p1", name := "Demo", repoPath := "/repo", currentGoal := "ship"
    status := .active, completed := [], inProgress := none, blockers := []
    context := { techStack := [], preferences := [] }, timeBudget := 0
    maxIterations := 1, gregDirection := none, lastActivity := 0 }

def wReviseReview : Review :=
  { decision := .revise, summary := "needs work", revisions := []
    feedback := "fix it", questionForGreg := "" }

def wApproveReview : Review :=
  { decision := .approve, summary := "looks good", revisions := []
    feedback := "", questionForGreg := "" }

def wAskGregReview : Review :=
  { decision := .ask_greg, summary := "unsure", revisions := []
    feedback := "", questionForGreg := "ship it?" }

def wOkExec : ExecutionResult :=
  { status := .completed, commitHash := some "c1", summary := "done"
    filesChanged := ["a.js"], questionsForGreg := [], issues := [] }

def wAllReviseEnv : ReviewEnv :=
  { review := fun _ _ => wReviseReview, reviseExec := fun _ _ => wOkExec }

def wAskGregEnv : ReviewEnv :=
  { review := fun _ _ => wAskGregReview, reviseExec := fun _ _ => wOkExec }

def wGoodDecision : Decision :=
  { nextStep := { task := "build feature", details := "", isPrerequisite := false }
    confidence := .high, needsGreg := false, questionForGreg := "" }

def wLowDecision : Decision :=
  { nextStep := { task := "pick db", details := "", isPrerequisite := false }
    confidence := .low, needsGreg := false, questionForGreg := "" }

def wPrereqDecision : Decision :=
  { nextStep := { task := "commit files", details := "", isPrerequisite := true }
    confidence := .high, needsGreg := false, questionForGreg := "" }

def wApproveProcEnv : ProcEnv :=
  { parsedGoal := { projectId := "p1", name := "Demo", currentGoal := "ship", techStack := none, preferences := none }
    decide := fun _ => wGoodDecision
    exec := fun _ => wOkExec
    review := fun _ _ _ => wApproveReview
    reviseExec := fun _ _ _ => wOkExec
    beforeHash := fun _ => some "c0"
    gitOk := fun _ => true
    timeRemTop := fun _ => 0
    timeRemBranch := fun _ => 0
    now := fun _ => 7 }

def wLowProcEnv : ProcEnv :=
  { wApproveProcEnv with decide := fun _ => wLowDecision }

def wReviseProcEnv : ProcEnv :=
  { wApproveProcEnv with review := fun _ _ _ => wReviseReview }

def wPrereqProcEnv : ProcEnv :=
  { wApproveProcEnv with decide := fun _ => wPrereqDecision }

def wStep : StepIn :=
  { state := wState, currentIteration := 0, branches := [], k := 0 }

def wWaitA : ProjectState :=
  { wState with projectId := "a", status := .waiting_input, lastActivity := 5 }

def wWaitB : ProjectState :=
  { wState with projectId := "b", status := .waiting_input, lastActivity := 10 }

def wDemoStore : List ProjectState := [wWaitA, wWaitB]

def wCycleEnv : CycleEnv :=
  { loadActive := .ok [], loadWaiting := .ok [], onboard := .ok "p-new"
    processResult := fun _ => .ok () }

/-! ### Claim theorems -/

/-- Claim C1: under a review agent that answers `revise` every round, with
every re-execution completing with a commit, the revision loop performs
exactly `SAFETY_CAP = 6` rounds and then forces an escalation — it sets
`status = waiting_input`, clears `inProgress`, persists exactly that state,
asks the human the safety-cap question, and returns the `waiting` sentinel
(first conjunct).  In every case the loop ends either approved or with
`status = waiting_input` (second conjunct), and when it ends `waiting` the
enclosing loop-body run appends no `TaskRecord` — the completed list is
unchanged (third conjunct, instantiated with the all-`revise` agent). -/
theorem revision_loop_bounded :
    (∀ (env : ReviewEnv) (bh : Option String) (task : String)
        (st : ProjectState) (cur : ExecutionResult),
      (∀ c h, (env.review c h).decision = .revise) →
      (∀ rv n, (env.reviseExec rv n).status = .completed ∧
        strTruthy (env.reviseExec rv n).commitHash = true) →
      reviewLoop env bh task st cur =
        { result := .waiting, state := escalatedState st
          saves := [escalatedState st], asks := [safetyCapText task]
          rounds := SAFETY_CAP, revCalls := SAFETY_CAP }) ∧
    (∀ (env : ReviewEnv) (bh : Option String) (task : String) (fuel rc : Nat)
        (st : ProjectState) (cur : ExecutionResult) (hist : List HistEntry),
      (∃ out, (reviewLoopGo env bh task fuel rc st cur hist).result = .approved out) ∨
      (reviewLoopGo env bh task fuel rc st cur hist).state.status = .waiting_input) ∧
    (∀ (env : ProcEnv) (mi tb : Nat) (si : StepIn),
      ¬(tb > 0 ∧ env.timeRemTop si.k < 60000) →
      escalationNeeded (env.decide si.k) = false →
      (env.exec si.k).status = .completed ∧ strTruthy (env.exec si.k).commitHash = true →
      (∀ c h, (env.review si.k c h).decision = .revise) →
      (∀ rv n, (env.reviseExec si.k rv n).status = .completed ∧
        strTruthy (env.reviseExec si.k rv n).commitHash = true) →
      (procStep env mi tb si).kind = .ret ∧
      (procStep env mi tb si).state.status = .waiting_input ∧
      (procStep env mi tb si).state.inProgress = none ∧
      (procStep env mi tb si).state.completed = si.state.completed ∧
      (procStep env mi tb si).rounds = SAFETY_CAP) := by
  refine ⟨?_, ?_, ?_⟩
  · intro env bh task st cur h₁ h₂
    exact reviewLoopGo_allRevise env bh task h₁ h₂ SAFETY_CAP 0 st cur []
  · intro env bh task fuel rc st cur hist
    rcases reviewLoopGo_shape env bh task fuel rc st cur hist with
      ⟨out, h₁, _, _⟩ | ⟨_, h₂, _⟩
    · exact Or.inl ⟨out, h₁⟩
    · right
      rw [h₂]
      rfl
  · intro env mi tb si ht he hx h₁ h₂
    have hsr : stepReview env si =
        { result := .waiting, state := escalatedState (stepExecState env si)
          saves := [escalatedState (stepExecState env si)]
          asks := [safetyCapText (env.decide si.k).nextStep.task]
          rounds := SAFETY_CAP, revCalls := SAFETY_CAP } := by
      unfold stepReview reviewLoop
      exact reviewLoopGo_allRevise _ _ _ h₁ h₂ SAFETY_CAP 0 _ _ []
    have hres : (stepReview env si).result = .waiting := by rw [hsr]
    rw [procStep_waiting env mi tb si ht he hx hres]
    refine ⟨rfl, ?_, ?_, ?_, ?_⟩
    · rw [hsr]; rfl
    · rw [hsr]; rfl
    · rw [hsr]
      exact (escalatedState_completed _).trans (stepExecState_completed env si)
    · rw [hsr]

/-- Witness for C1 at a concrete all-`revise` environment. -/
theorem revision_loop_bounded_witness :
    reviewLoop wAllReviseEnv (some "c0") "t" wState wOkExec =
      { result := .waiting, state := escalatedState wState
        saves := [escalatedState wState], asks := [safetyCapText "t"]
        rounds := SAFETY_CAP, revCalls := SAFETY_CAP } :=
  revision_loop_bounded.1 wAllReviseEnv (some "c0") "t" wState wOkExec
    (fun _ _ => rfl) (fun _ _ => ⟨rfl, rfl⟩)

/-- Claim C4: an `ask_greg` review — the decision the specification names
`escalate`, one of the three decisions the review agent can produce — makes
the revision loop ask the human the agent's question together with the work
summary (`askGregReviewText` carries both), persist exactly the state with
`status = waiting_input` and `inProgress` cleared, and return the `waiting`
sentinel without calling the execution agent again that round
(`revCalls = 0`). -/
theorem review_escalation_path (env : ReviewEnv) (bh : Option String) (task : String)
    (fuel rc : Nat) (st : ProjectState) (cur : ExecutionResult) (hist : List HistEntry)
    (h : (env.review cur.commitHash hist).decision = .ask_greg) :
    reviewLoopGo env bh task (fuel + 1) rc st cur hist =
      { result := .waiting, state := escalatedState st
        saves := [escalatedState st]
        asks := [askGregReviewText (env.review cur.commitHash hist)]
        rounds := 1, revCalls := 0 } ∧
    (escalatedState st).status = .waiting_input ∧
    (escalatedState st).inProgress = none ∧
    askGregReviewText (env.review cur.commitHash hist) =
      ":thinking_face: Grok reviewed the work and wants your input:\n\n" ++
        (env.review cur.commitHash hist).questionForGreg ++
        "\n\n_Summary: " ++ (env.review cur.commitHash hist).summary ++ "_" :=
  ⟨reviewLoopGo_askGreg env bh task fuel rc st cur hist h, rfl, rfl, rfl⟩

/-- Witness for C4 at a concrete `ask_greg` review. -/
theorem review_escalation_path_witness :
    reviewLoopGo wAskGregEnv (some "c0") "t" 6 0 wState wOkExec [] =
      { result := .waiting, state := escalatedState wState
        saves := [escalatedState wState]
        asks := [askGregReviewText (wAskGregEnv.review wOkExec.commitHash [])]
        rounds := 1, revCalls := 0 } :=
  (review_escalation_path wAskGregEnv (some "c0") "t" 5 0 wState wOkExec [] rfl).1

/-- Claim C7: `reviewWork` retries failed review calls up to 3 attempts
with exponential backoff (sleeping `1000*2^1` and `1000*2^2` ms after the
first two failures); when all 3 attempts fail it does not raise but
returns the auto-approve fallback: decision `approve` with the synthetic
"Review failed, auto-approved" summary.  A success stops the retrying (the
attempt count never exceeds 3, and a first-attempt success makes exactly
one call). -/
theorem review_failure_auto_approves :
    (∀ attempts : Nat → Option RawReview,
      attempts 1 = none → attempts 2 = none → attempts 3 = none →
      reviewWork attempts =
        { review := reviewFailedFallback, waits := [2000, 4000], attemptsMade := 3 }) ∧
    reviewFailedFallback.decision = .approve ∧
    reviewFailedFallback.summary = "Review failed, auto-approved" ∧
    (∀ attempts : Nat → Option RawReview, (reviewWork attempts).attemptsMade ≤ 3) ∧
    (∀ (attempts : Nat → Option RawReview) (raw : RawReview),
      attempts 1 = some raw →
      reviewWork attempts =
        { review := normalizeReview raw, waits := [], attemptsMade := 1 }) := by
  refine ⟨?_, rfl, rfl, ?_, ?_⟩
  · intro attempts h₁ h₂ h₃
    simp [reviewWork, reviewWorkFrom, h₁, h₂, h₃]
  · intro attempts
    exact reviewWorkFrom_le attempts 3
  · intro attempts raw h₁
    simp [reviewWork, reviewWorkFrom, h₁]

/-- Witness for C7: all three attempts fail. -/
theorem review_failure_auto_approves_witness :
    reviewWork (fun _ => none) =
      { review := reviewFailedFallback, waits := [2000, 4000], attemptsMade := 3 } :=
  review_failure_auto_approves.1 (fun _ => none) rfl rfl rfl

/-- Claim C10: at most one dispatch cycle runs at a time and the in-flight
guard cannot wedge: a tick arriving while `cycleRunning` is set returns
immediately with the `skipped` outcome, processing no project; and for an
actually-running cycle the `finally` clears the flag on every exit path —
whatever the load / onboarding / per-project oracles do, including throws. -/
theorem cycle_guard_never_wedged :
    (∀ env : CycleEnv, dispatchCycle true env = (true, Except.ok .skipped)) ∧
    CycleOutcome.skipped.processed = [] ∧
    (∀ env : CycleEnv, (dispatchCycle false env).1 = false) := by
  refine ⟨fun env => rfl, rfl, fun env => rfl⟩

/-- Unfolding: a loop entry whose body run exits (`ret` or `brk`) ends the
loop with that run's effects. -/
theorem procLoop_succ_exit (env : ProcEnv) (mi tb fuel : Nat) (si : StepIn)
    (hlt : si.currentIteration < mi) (hk : (procStep env mi tb si).kind ≠ .cont) :
    procLoop env mi tb (fuel + 1) si =
      { state := (procStep env mi tb si).state
        branches := (procStep env mi tb si).branches
        saves := (procStep env mi tb si).saves
        asks := (procStep env mi tb si).asks
        errs := (procStep env mi tb si).errs
        execCalls := (procStep env mi tb si).execCalls
        revCalls := (procStep env mi tb si).revCalls
        rounds := (procStep env mi tb si).rounds
        finished := true } := by
  rcases hkk : (procStep env mi tb si).kind with _ | _ | _
  · simp only [procLoop, if_pos hlt, hkk]
  · simp only [procLoop, if_pos hlt, hkk]
  · exact absurd hkk hk

/-- Unfolding: `processProject` on an `active` state is the iteration loop
started at iteration 0 with fresh bookkeeping. -/
theorem processProject_active (env : ProcEnv) (fuel : Nat) (st0 : ProjectState)
    (hst : st0.status = .active) :
    processProject env fuel st0 =
      procLoop env (if st0.maxIterations = 0 then 1 else st0.maxIterations)
        (st0.timeBudget * 60 * 1000) fuel
        { state := st0, currentIteration := 0, branches := [], k := 0 } := by
  simp only [processProject, hst]
  rfl

/-- Statuses of the projects the store filters return. -/
theorem mem_loadWaitingProjects {store : List ProjectState} {p : ProjectState}
    (h : p ∈ loadWaitingProjects store) : p.status = .waiting_input :=
  of_decide_eq_true (List.mem_filter.mp h).2

theorem mem_loadActiveProjects {store : List ProjectState} {p : ProjectState}
    (h : p ∈ loadActiveProjects store) : p.status = .active :=
  of_decide_eq_true (List.mem_filter.mp h).2

/-- Every (before, after) pair the reply router persists is a documented
edge. -/
theorem handleGregMessage_saves (store : List ProjectState) (text : String) (now : Nat) :
    ∀ pr ∈ (handleGregMessage store text now).saves,
      edgeOK pr.1.status pr.2.status = true := by
  intro pr hm
  rcases hw : loadWaitingProjects store with _ | ⟨p, rest⟩
  · rcases ha : loadActiveProjects store with _ | ⟨q, rest'⟩
    · simp only [handleGregMessage, hw, ha] at hm
      cases hm
    · simp only [handleGregMessage, hw, ha] at hm
      rcases List.mem_singleton.mp hm with rfl
      have hq : q.status = .active :=
        mem_loadActiveProjects (ha ▸ List.mem_cons_self q rest')
      show edgeOK q.status _ = true
      rw [hq]
      rfl
  · simp only [handleGregMessage, hw] at hm
    rcases List.mem_singleton.mp hm with rfl
    have hp : p.status = .waiting_input :=
      mem_loadWaitingProjects (hw ▸ List.mem_cons_self p rest)
    show edgeOK p.status _ = true
    rw [hp]
    rfl

/-- Claim C2: status transitions in the core follow only the documented
edges `active→waiting_input`, `waiting_input→active`, `active→active`,
`completed→active`.  First conjunct: every chain of states persisted by a
`processProject` run (from any entry status the core can hand it — the
scheduler only processes non-`paused` projects) walks documented edges
from the entry status.  Second: `resumeProject` on a waiting project is the
`waiting_input→active` edge.  Third: every save the human-reply router
performs is a documented edge. -/
theorem status_transitions_documented :
    (∀ (env : ProcEnv) (fuel : Nat) (st0 : ProjectState), st0.status ≠ .paused →
      chainOK st0.status (processProject env fuel st0).saves = true) ∧
    (∀ (text : String) (now : Nat) (st : ProjectState), st.status = .waiting_input →
      (resumeProject text now st).status = .active ∧
      edgeOK st.status (resumeProject text now st).status = true) ∧
    (∀ (store : List ProjectState) (text : String) (now : Nat),
      ∀ pr ∈ (handleGregMessage store text now).saves,
        edgeOK pr.1.status pr.2.status = true) := by
  refine ⟨processProject_chain, ?_, handleGregMessage_saves⟩
  intro text now st hst
  refine ⟨rfl, ?_⟩
  rw [hst]
  rfl

/-- Witness for C2 at a concrete run, resume, and routed reply. -/
theorem status_transitions_documented_witness :
    chainOK wState.status (processProject wApproveProcEnv 3 wState).saves = true ∧
    edgeOK wWaitA.status (resumeProject "go" 100 wWaitA).status = true ∧
    edgeOK (wWaitA, resumeProject "go" 100 wWaitA).1.status
      (wWaitA, resumeProject "go" 100 wWaitA).2.status = true :=
  ⟨status_transitions_documented.1 wApproveProcEnv 3 wState (by decide),
   (status_transitions_documented.2.1 "go" 100 wWaitA (by decide)).2,
   status_transitions_documented.2.2 wDemoStore "go" 100
     (wWaitA, resumeProject "go" 100 wWaitA) (by decide)⟩

/-- Claim C3: a decision with `needsGreg` set or confidence `low` makes the
loop body emit exactly the decision's question — or the synthesized default
"Should I proceed with: task?" (`decisionQuestion`) — set
`status = waiting_input`, persist that state last, and return for the
cycle without any execution-agent call (first conjunct, any iteration).
Second conjunct: a whole `processProject` run whose first decision
escalates performs zero execution calls and ends `waiting_input`. -/
theorem low_confidence_escalates_before_execution :
    (∀ (env : ProcEnv) (mi tb : Nat) (si : StepIn),
      ¬(tb > 0 ∧ env.timeRemTop si.k < 60000) →
      escalationNeeded (env.decide si.k) = true →
      (procStep env mi tb si).kind = .ret ∧
      (procStep env mi tb si).execCalls = 0 ∧
      (procStep env mi tb si).revCalls = 0 ∧
      (procStep env mi tb si).state.status = .waiting_input ∧
      (procStep env mi tb si).asks = [decisionQuestion (env.decide si.k)] ∧
      (procStep env mi tb si).saves.getLast? = some (procStep env mi tb si).state) ∧
    (∀ (env : ProcEnv) (fuel : Nat) (st0 : ProjectState),
      0 < fuel → st0.status = .active →
      ¬(st0.timeBudget * 60 * 1000 > 0 ∧ env.timeRemTop 0 < 60000) →
      escalationNeeded (env.decide 0) = true →
      (processProject env fuel st0).execCalls = 0 ∧
      (processProject env fuel st0).state.status = .waiting_input ∧
      (processProject env fuel st0).asks = [decisionQuestion (env.decide 0)] ∧
      (processProject env fuel st0).finished = true) := by
  constructor
  · intro env mi tb si ht he
    rw [procStep_escalate env mi tb si ht he]
    exact ⟨rfl, rfl, rfl, rfl, rfl, getLast?_append_singleton _ _⟩
  · intro env fuel st0 hf hst ht he
    cases fuel with
    | zero => exact absurd hf (by omega)
    | succ f =>
      have hmi := effMi_pos st0.maxIterations
      have heq := procStep_escalate env
        (if st0.maxIterations = 0 then 1 else st0.maxIterations)
        (st0.timeBudget * 60 * 1000)
        { state := st0, currentIteration := 0, branches := [], k := 0 } ht he
      have hk : (procStep env
          (if st0.maxIterations = 0 then 1 else st0.maxIterations)
          (st0.timeBudget * 60 * 1000)
          { state := st0, currentIteration := 0, branches := [], k := 0 }).kind ≠ .cont := by
        rw [heq]
        intro h
        cases h
      rw [processProject_active env (f + 1) st0 hst,
        procLoop_succ_exit env _ _ f _ hmi hk, heq]
      exact ⟨rfl, rfl, rfl, rfl⟩

/-- Witness for C3: a low-confidence decision at a concrete state. -/
theorem low_confidence_escalates_before_execution_witness :
    (processProject wLowProcEnv 3 wState).execCalls = 0 ∧
    (processProject wLowProcEnv 3 wState).state.status = .waiting_input ∧
    (processProject wLowProcEnv 3 wState).asks = [decisionQuestion (wLowProcEnv.decide 0)] ∧
    (processProject wLowProcEnv 3 wState).finished = true :=
  low_confidence_escalates_before_execution.2 wLowProcEnv 3 wState
    (by decide) rfl (by decide) (by decide)

/-- Claim C5: a finalized (review-approved) task whose decision carried
`isPrerequisite = true` leaves the iteration counter where it was before
the iteration began (the slot is decremented back), records no
`IterationBranch`, and appends exactly the finalized `TaskRecord`. -/
theorem prerequisite_preserves_iteration_budget (env : ProcEnv) (mi tb : Nat)
    (si : StepIn) (out : Finalized)
    (ht : ¬(tb > 0 ∧ env.timeRemTop si.k < 60000))
    (he : escalationNeeded (env.decide si.k) = false)
    (hx : (env.exec si.k).status = .completed ∧ strTruthy (env.exec si.k).commitHash = true)
    (hp : (env.decide si.k).nextStep.isPrerequisite = true)
    (ha : (stepReview env si).result = .approved out) :
    (procStep env mi tb si).currentIteration = si.currentIteration ∧
    (procStep env mi tb si).branches = si.branches ∧
    (procStep env mi tb si).state.completed = si.state.completed ++
      [{ task := (env.decide si.k).nextStep.task, completedAt := env.now si.k
         commitHash := out.commitHash, revisions := out.revisionCount
         iteration := if mi > 1 then some (si.currentIteration + 1) else none }] := by
  rcases stepReview_shape env si with ⟨out', h₁, h₂, h₃⟩ | ⟨h₁, h₂, h₃⟩
  · rw [procStep_approved env mi tb si out ht he hx ha]
    refine ⟨by simp [hp], by simp [hp], ?_⟩
    show (stepReview env si).state.completed ++ _ = _
    rw [h₂, stepExecState_completed]
  · rw [ha] at h₁
    cases h₁

/-- Witness for C5: a prerequisite task approved on first review. -/
theorem prerequisite_preserves_iteration_budget_witness :
    (procStep wPrereqProcEnv 3 0 wStep).currentIteration = wStep.currentIteration ∧
    (procStep wPrereqProcEnv 3 0 wStep).branches = wStep.branches ∧
    (procStep wPrereqProcEnv 3 0 wStep).state.completed = wStep.state.completed ++
      [{ task := (wPrereqProcEnv.decide wStep.k).nextStep.task
         completedAt := wPrereqProcEnv.now wStep.k
         commitHash := wOkExec.commitHash, revisions := 0
         iteration := if 3 > 1 then some (wStep.currentIteration + 1) else none }] :=
  prerequisite_preserves_iteration_budget wPrereqProcEnv 3 0 wStep
    { commitHash := wOkExec.commitHash, summary := wOkExec.summary
      filesChanged := wOkExec.filesChanged, revisionCount := 0
      beforeHash := wPrereqProcEnv.beforeHash 0 }
    (by decide) (by decide) ⟨rfl, by decide⟩ (by decide) (by decide)

/-- Claim C6: an `IterationBranch` record is created only when
`maxIterations > 1`, the completed task is non-prerequisite, the current
iteration is strictly below `maxIterations`, and more than one minute of
time budget remains (`tb = 0` being the unbounded budget) — and then it is
the single branch for the approved commit (first conjunct).  Second
conjunct: a project with `maxIterations ≤ 1` never records a branch. -/
theorem iteration_branching_conditions :
    (∀ (env : ProcEnv) (mi tb : Nat) (si : StepIn),
      (procStep env mi tb si).branches ≠ si.branches →
      1 < mi ∧ (env.decide si.k).nextStep.isPrerequisite = false ∧
      si.currentIteration + 1 < mi ∧ (tb = 0 ∨ env.timeRemBranch si.k > 60000) ∧
      ∃ out, (stepReview env si).result = .approved out ∧
        (procStep env mi tb si).branches = si.branches ++
          [{ branch := "iteration-" ++ toString (si.currentIteration + 1)
             summary := out.summary, commitHash := out.commitHash }]) ∧
    (∀ (env : ProcEnv) (fuel : Nat) (st0 : ProjectState),
      st0.maxIterations ≤ 1 → (processProject env fuel st0).branches = []) := by
  refine ⟨?_, processProject_branches_nil⟩
  intro env mi tb si hne
  rcases procStep_branches env mi tb si with h | h
  · exact absurd h hne
  · exact h

/-- Witness for C6: with `maxIterations = 2` a first-iteration approved
non-prerequisite task records a branch (first conjunct applies), and the
`maxIterations = 1` fixture records none. -/
theorem iteration_branching_conditions_witness :
    (1 < 2 ∧ (wApproveProcEnv.decide wStep.k).nextStep.isPrerequisite = false ∧
      wStep.currentIteration + 1 < 2 ∧ ((0 : Nat) = 0 ∨ wApproveProcEnv.timeRemBranch wStep.k > 60000) ∧
      ∃ out, (stepReview wApproveProcEnv wStep).result = .approved out ∧
        (procStep wApproveProcEnv 2 0 wStep).branches = wStep.branches ++
          [{ branch := "iteration-" ++ toString (wStep.currentIteration + 1)
             summary := out.summary, commitHash := out.commitHash }]) ∧
    (processProject wApproveProcEnv 3 wState).branches = [] :=
  ⟨iteration_branching_conditions.1 wApproveProcEnv 2 0 wStep (by decide),
   iteration_branching_conditions.2 wApproveProcEnv 3 wState (by decide)⟩

/-- Claim C8 counterexample: the reply router does not resume the
most-recently-active waiting project.  In a store listing two waiting
projects where the second is the more recently active (`lastActivity`
5 < 10), the router resumes the first-listed one, which is not the
most-recently-active waiting project. -/
theorem reply_router_recency_counterexample :
    (handleGregMessage wDemoStore "go" 100).action =
      .resumedWaiting (resumeProject "go" 100 wWaitA) ∧
    wWaitB ∈ loadWaitingProjects wDemoStore ∧
    wWaitA.lastActivity < wWaitB.lastActivity ∧
    (resumeProject "go" 100 wWaitA).projectId ≠ wWaitB.projectId := by
  decide

/-- Claim C8 (amended): the reply router resolves an unsolicited reply in
priority order, selecting within each class the FIRST project in store
listing order (not the most-recently-active one): (1) if any project is
`waiting_input`, it resumes the first-listed waiting project with the
reply as direction and triggers a new pass; (2) else if any is `active`,
it attaches the reply as pending direction on the first-listed active
project and triggers a new pass; (3) else it triggers a pass, and a pass
seeing no active and no waiting projects starts onboarding. -/
theorem reply_router_priority_order :
    (∀ (store : List ProjectState) (text : String) (now : Nat)
        (p : ProjectState) (rest : List ProjectState),
      loadWaitingProjects store = p :: rest →
      handleGregMessage store text now =
        { action := .resumedWaiting (resumeProject text now p)
          saves := [(p, resumeProject text now p)], triggeredCycle := true } ∧
      (resumeProject text now p).status = .active ∧
      (resumeProject text now p).gregDirection = some text) ∧
    (∀ (store : List ProjectState) (text : String) (now : Nat)
        (p : ProjectState) (rest : List ProjectState),
      loadWaitingProjects store = [] →
      loadActiveProjects store = p :: rest →
      handleGregMessage store text now =
        { action := .attachedToActive { p with gregDirection := some text, lastActivity := now }
          saves := [(p, { p with gregDirection := some text, lastActivity := now })]
          triggeredCycle := true }) ∧
    (∀ (store : List ProjectState) (text : String) (now : Nat),
      loadWaitingProjects store = [] →
      loadActiveProjects store = [] →
      handleGregMessage store text now =
        { action := .onboardingCycle, saves := [], triggeredCycle := true }) ∧
    (∀ env : CycleEnv, env.loadActive = .ok [] → env.loadWaiting = .ok [] →
      ((∃ e, env.onboard = .error e ∧
          (dispatchCycle false env).2 = .ok .onboardFailed) ∨
       (∃ newId fs, env.onboard = .ok newId ∧
          (dispatchCycle false env).2 = .ok (.ran true [newId] fs)))) := by
  refine ⟨?_, ?_, ?_, ?_⟩
  · intro store text now p rest hw
    refine ⟨?_, rfl, rfl⟩
    simp only [handleGregMessage, hw]
  · intro store text now p rest hw ha
    simp only [handleGregMessage, hw, ha]
  · intro store text now hw ha
    simp only [handleGregMessage, hw, ha]
  · intro env h₁ h₂
    rcases ho : env.onboard with e | newId
    · left
      exact ⟨e, rfl, by simp [dispatchCycle, h₁, h₂, ho]⟩
    · right
      exact ⟨newId, [newId].filter (fun pid => (env.processResult pid).isOk = false),
        rfl, by simp [dispatchCycle, h₁, h₂, ho]⟩

/-- Witness for C8 (amended) at the concrete store and cycle oracles. -/
theorem reply_router_priority_order_witness :
    handleGregMessage wDemoStore "go" 100 =
      { action := .resumedWaiting (resumeProject "go" 100 wWaitA)
        saves := [(wWaitA, resumeProject "go" 100 wWaitA)], triggeredCycle := true } ∧
    ((∃ e, wCycleEnv.onboard = .error e ∧
        (dispatchCycle false wCycleEnv).2 = .ok .onboardFailed) ∨
     (∃ newId fs, wCycleEnv.onboard = .ok newId ∧
        (dispatchCycle false wCycleEnv).2 = .ok (.ran true [newId] fs))) :=
  ⟨(reply_router_priority_order.1 wDemoStore "go" 100 wWaitA [wWaitB] (by decide)).1,
   reply_router_priority_order.2.2.2 wCycleEnv rfl rfl⟩

/-- Claim C9: `inProgress` is non-null only while `status = active`.  First
conjunct: every state the revision loop persists is an escalated exit with
`status = waiting_input` and `inProgress` cleared before persisting.
Second conjunct: across a whole `processProject` run entered with a clear
slot (and not `paused`, which the core never processes), every persisted
state with a non-null `inProgress` has `status = active`, and so does the
final state. -/
theorem inProgress_only_while_active :
    (∀ (env : ReviewEnv) (bh : Option String) (task : String) (fuel rc : Nat)
        (st : ProjectState) (cur : ExecutionResult) (hist : List HistEntry),
      ∀ s ∈ (reviewLoopGo env bh task fuel rc st cur hist).saves,
        s.status = .waiting_input ∧ s.inProgress = none) ∧
    (∀ (env : ProcEnv) (fuel : Nat) (st0 : ProjectState),
      st0.status ≠ .paused → st0.inProgress = none →
      (∀ s ∈ (processProject env fuel st0).saves,
        s.inProgress ≠ none → s.status = .active) ∧
      ((processProject env fuel st0).state.inProgress ≠ none →
        (processProject env fuel st0).state.status = .active)) := by
  refine ⟨?_, processProject_inprog⟩
  intro env bh task fuel rc st cur hist s hm
  have h := reviewLoopGo_saves env bh task fuel rc st cur hist s hm
  exact ⟨h.1, h.2.1⟩

/-- Witness for C9: the escalated save of a concrete revision loop, and a
concrete run ending with the safety-cap escalation. -/
theorem inProgress_only_while_active_witness :
    ((escalatedState wState).status = .waiting_input ∧
      (escalatedState wState).inProgress = none) ∧
    ((processProject wReviseProcEnv 3 wState).state.inProgress ≠ none →
      (processProject wReviseProcEnv 3 wState).state.status = .active) :=
  ⟨inProgress_only_while_active.1 wAllReviseEnv (some "c0") "t" 6 0 wState wOkExec []
     (escalatedState wState) (by decide),
   (inProgress_only_while_active.2 wReviseProcEnv 3 wState (by decide) rfl).2⟩

end Dispatch
